import Mathlib

/-!
Verification of the ev-tracker data-collection pipeline.

Shallow embedding of the fuel-taxonomy normalizers, the month-key
generator, the canonical-store orchestration, and the format extractors
(spreadsheet, positional PDF, JSON-stat API), translated from the
JavaScript sources in scripts/util.js, scripts/parsers/FR.js,
scripts/parsers/NL.js and the DE / SE / NO / CN / ACEA / collect_all
parser modules.
-/

set_option maxRecDepth 10000

namespace EvTracker

deriving instance DecidableEq for Except

/-- Fuel codes appearing anywhere in the pipeline.  The spec's closed
canonical enumeration is the subset listed in canonicalFuelCodes; FCEV
additionally appears in the Chinese taxonomy table. -/
inductive Fuel where
  | BEV | PHEV | HYBRID | DIESEL | GASOLINE | LPG_CNG_OTHER
  | FOSSIL | OTHER | UNKNOWN | FCEV
  deriving DecidableEq, Repr

open Fuel

/-- Canonical Fuel Code closed enumeration from the spec (section 3). -/
def canonicalFuelCodes : List Fuel :=
  [BEV, PHEV, HYBRID, DIESEL, GASOLINE, LPG_CNG_OTHER, FOSSIL, OTHER, UNKNOWN]

/- Character / string helpers modelling the JavaScript string operations
used by the parsers (trim, toLowerCase, whitespace collapse, substring
containment, parseInt).  Labels are handled as lists of characters. -/

/-- Whitespace as matched by the JS regex class used in the sources
(the labels involved only ever contain ASCII whitespace). -/
def jsIsSpace (c : Char) : Bool :=
  c = ' ' || c = '\t' || c = '\n' || c = '\r'

/-- JS String.prototype.toLowerCase on a character list. -/
def toLowerL (l : List Char) : List Char := l.map Char.toLower

/-- JS String.prototype.trim on a character list. -/
def trimL (l : List Char) : List Char :=
  ((l.dropWhile jsIsSpace).reverse.dropWhile jsIsSpace).reverse

/-- Helper of collapseWs: the flag records whether the previous
character belonged to a whitespace run already emitted as one blank. -/
def collapseWsAux : Bool → List Char → List Char
  | _, [] => []
  | prevWs, c :: rest =>
    if jsIsSpace c then
      if prevWs then collapseWsAux true rest
      else ' ' :: collapseWsAux true rest
    else c :: collapseWsAux false rest

/-- Replacement of every whitespace run by a single blank, modelling the
JS replace of a whitespace-plus regex by one space. -/
def collapseWs (l : List Char) : List Char := collapseWsAux false l

/-- JS String.prototype.includes: does hay contain needle as a
contiguous substring. -/
def jsIncludes (hay needle : List Char) : Bool :=
  if needle.isPrefixOf hay then true
  else
    match hay with
    | [] => false
    | _ :: t => jsIncludes t needle

/-- JS parseInt with radix 10: skip leading whitespace, optional sign,
then the longest digit run; no digits yields NaN, modelled as none. -/
def jsParseInt (s : String) : Option Int :=
  let l := s.data.dropWhile jsIsSpace
  let (sign, rest) : Int × List Char :=
    match l with
    | '-' :: r => (-1, r)
    | '+' :: r => (1, r)
    | r => (1, r)
  let digits := rest.takeWhile Char.isDigit
  if digits = [] then none
  else some (sign * (digits.foldl (fun acc c => acc * 10 + (c.toNat - '0'.toNat)) 0 : Nat))

/-- JS pattern of parseInt(x, 10) or 0: NaN collapses to zero. -/
def jsParseIntOr0 (s : String) : Int := (jsParseInt s).getD 0

/- Fuel Taxonomy Normalizers, one per country namespace. -/

/-- FRENCH_FUEL_MAP from scripts/parsers/FR.js, flattened into the
(alias, code) iteration order of the nested Object.entries loops. -/
def frPairsRaw : List (String × Fuel) :=
  [("Gazole (thermique)", DIESEL), ("Diesel", DIESEL),
   ("Essence (thermique)", GASOLINE), ("Essence", GASOLINE),
   ("hybride gazole non rechargeable", HYBRID),
   ("hybride essence non rechargeable", HYBRID),
   ("gazole (y compris hybrides non rechargeables)", HYBRID),
   ("essence (y compris hybrides non rechargeables)", HYBRID),
   ("hybride rechargeable", PHEV),
   ("Electrique", BEV), ("Electric", BEV), ("BEV", BEV),
   ("Gaz & ND", OTHER), ("LPG", OTHER), ("CNG", OTHER)]

/-- Per-alias cleaning done inside the loop of normalizeFrenchFuel:
lowercase then collapse whitespace runs (aliases are not trimmed). -/
def frPairs : List (List Char × Fuel) :=
  frPairsRaw.map (fun p => (collapseWs (toLowerL p.1.data), p.2))

/-- Label cleaning of normalizeFrenchFuel: trim, lowercase, collapse. -/
def cleanFR (l : List Char) : List Char := collapseWs (toLowerL (trimL l))

/-- Alias scan of normalizeFrenchFuel: exact match returns immediately,
otherwise the longest contained alias seen so far is tracked (strict
improvement only, so the first registered alias wins ties), and the
final best defaults to OTHER. -/
def frScan (clean : List Char) :
    List (List Char × Fuel) → Option Fuel → Nat → Fuel
  | [], best, _ => best.getD OTHER
  | (a, c) :: rest, best, bestLen =>
    if clean = a then c
    else if jsIncludes clean a && decide (bestLen < a.length) then
      frScan clean rest (some c) a.length
    else frScan clean rest best bestLen

/-- Function normalizeFrenchFuel of scripts/parsers/FR.js. -/
def normalizeFrenchFuel (label : String) : Fuel :=
  if label = "" then UNKNOWN
  else frScan (cleanFR label.data) frPairs none 0

/-- Alias table of mapGermanFuelType, in object insertion order. -/
def germanPairs : List (List Char × Fuel) :=
  [("elektro".data, BEV), ("elektrisch".data, BEV),
   ("benzin".data, GASOLINE), ("diesel".data, DIESEL),
   ("hybrid".data, HYBRID),
   ("plug-in-hybrid".data, PHEV), ("plug-in hybrid".data, PHEV),
   ("erdgas".data, LPG_CNG_OTHER), ("cng".data, LPG_CNG_OTHER),
   ("flÃ¼ssiggas".data, LPG_CNG_OTHER), ("lpg".data, LPG_CNG_OTHER),
   ("wasserstoff".data, LPG_CNG_OTHER),
   ("sonstige".data, OTHER)]

/-- Containment loop shared by mapGermanFuelType and mapAceaFuelType:
the first registered alias contained in the normalized label wins, and
a label matching nothing yields UNKNOWN. -/
def firstContaining (normalized : List Char) :
    List (List Char × Fuel) → Fuel
  | [] => UNKNOWN
  | (k, v) :: rest =>
    if jsIncludes normalized k then v else firstContaining normalized rest

/-- Function mapGermanFuelType of the DE parser module. -/
def mapGermanFuelType (fuelName : String) : Fuel :=
  if fuelName = "" then UNKNOWN
  else firstContaining (trimL (toLowerL fuelName.data)) germanPairs

/-- Alias table of mapAceaFuelType (both ACEA parser variants). -/
def aceaPairs : List (List Char × Fuel) :=
  [("electric".data, BEV), ("bev".data, BEV),
   ("battery electric".data, BEV),
   ("plug-in hybrid".data, PHEV), ("phev".data, PHEV),
   ("hybrid electric".data, HYBRID), ("hev".data, HYBRID),
   ("hybrid".data, HYBRID),
   ("diesel".data, DIESEL),
   ("petrol".data, GASOLINE), ("gasoline".data, GASOLINE),
   ("lpg".data, LPG_CNG_OTHER), ("cng".data, LPG_CNG_OTHER),
   ("other".data, OTHER)]

/-- Function mapAceaFuelType of the ACEA parser modules. -/
def mapAceaFuelType (fuelName : String) : Fuel :=
  if fuelName = "" then UNKNOWN
  else firstContaining (trimL (toLowerL fuelName.data)) aceaPairs

/-- Exact-key lookup table of the Dutch mapFuelType (scripts/parsers/NL.js). -/
def nlMapping : List (String × Fuel) :=
  [("Elektriciteit", BEV), ("Benzine", GASOLINE), ("Diesel", DIESEL),
   ("LPG", LPG_CNG_OTHER), ("CNG", LPG_CNG_OTHER), ("LNG", LPG_CNG_OTHER),
   ("Waterstof", LPG_CNG_OTHER), ("Alcohol", LPG_CNG_OTHER)]

/-- Function mapFuelType of scripts/parsers/NL.js: plain object lookup
on the raw label, defaulting to OTHER (also for the empty label). -/
def mapFuelTypeNL (brandstof : String) : Fuel :=
  ((nlMapping.find? (fun p => p.1 = brandstof)).map (fun p => p.2)).getD OTHER

/-- SWEDISH_FUEL_MAP flattened in the iteration order of
normalizeSwedishFuel. -/
def swPairsRaw : List (String × Fuel) :=
  [("diesel", DIESEL), ("petrol", GASOLINE), ("electric hybrid", HYBRID),
   ("plug-in hybrid", PHEV), ("electricity", BEV),
   ("gas/gas flex", OTHER), ("ethanol/ethanol flexifuel", OTHER),
   ("other fuels", OTHER)]

/-- Function normalizeSwedishFuel of the SE parser: exact match on the
trimmed lowercased label against each lowercased alias, else OTHER. -/
def normalizeSwedishFuel (label : String) : Fuel :=
  if label = "" then UNKNOWN
  else
    ((swPairsRaw.find? (fun p => toLowerL (trimL label.data) = toLowerL p.1.data)).map
      (fun p => p.2)).getD OTHER

/-- CHINESE_FUEL_MAP flattened in the iteration order of
normalizeChineseFuel. -/
def cnPairs : List (List Char × Fuel) :=
  [("纯电动".data, BEV), ("纯电动汽车".data, BEV), ("BEV".data, BEV),
   ("插电式混合动力".data, PHEV), ("插电式混合动力汽车".data, PHEV),
   ("PHEV".data, PHEV),
   ("燃料电池".data, FCEV), ("燃料电池汽车".data, FCEV), ("FCEV".data, FCEV),
   ("混合动力".data, HYBRID), ("HEV".data, HYBRID),
   ("汽油".data, GASOLINE), ("汽油车".data, GASOLINE),
   ("柴油".data, DIESEL), ("柴油车".data, DIESEL)]

/-- Containment scan of normalizeChineseFuel: the first registered
alias contained in the trimmed label wins, default OTHER. -/
def cnFirstContaining (clean : List Char) : List (List Char × Fuel) → Fuel
  | [] => OTHER
  | (a, code) :: rest =>
    if jsIncludes clean a then code else cnFirstContaining clean rest

/-- Function normalizeChineseFuel of the CN parser module: the label is
trimmed (not lowercased) and matched by containment. -/
def normalizeChineseFuel (label : String) : Fuel :=
  if label = "" then UNKNOWN
  else cnFirstContaining (trimL label.data) cnPairs

/-- Norwegian mapFuelType of the NO parser module: exact lookup of the
statistical fuel-type code, defaulting to UNKNOWN. -/
def mapFuelTypeNO (code : String) : Fuel :=
  if code = "19" then BEV
  else if code = "20" then FOSSIL
  else if code = "21" then HYBRID
  else if code = "6" then OTHER
  else UNKNOWN

/- Month Key Generator (scripts/util.js). -/

/-- Month record produced by getMonthsSinceStart: year, month and the
string code built from them. -/
structure MonthInfo where
  year : Nat
  month : Nat
  code : String
  deriving DecidableEq, Repr

/-- JS String(month).padStart(2, zero) for the month part. -/
def pad2 (n : Nat) : String :=
  if n < 10 then "0" ++ toString n else toString n

/-- Month code string year-MM as built by getMonthsSinceStart. -/
def monthCode (year month : Nat) : String :=
  toString year ++ "-" ++ pad2 month

/-- Month record constructor used by getMonthsSinceStart. -/
def mkMonth (year month : Nat) : MonthInfo :=
  ⟨year, month, monthCode year month⟩

/-- Function getMonthsSinceStart of scripts/util.js; the wall clock is
passed explicitly as the current year and current month (getMonth()+1). -/
def getMonthsSinceStart (startYear currentYear currentMonth : Nat) :
    List MonthInfo :=
  (List.range' startYear (currentYear + 1 - startYear)).flatMap (fun year =>
    (List.range' 1 (if year = currentYear then currentMonth else 12)).map
      (fun month => mkMonth year month))

/-- Modelled from the spec: the ordered, gapless, strictly increasing
sequence of month keys from January of the start year through the
current wall-clock month inclusive, empty for a start year strictly
after the current year. -/
def specMonthKeys (startYear currentYear currentMonth : Nat) :
    List MonthInfo :=
  if currentYear < startYear then []
  else
    (List.range (12 * (currentYear - startYear) + currentMonth)).map
      (fun k => mkMonth (startYear + k / 12) (k % 12 + 1))

/- Canonical Store model: the per-country output directory is a map
from file name to persisted JSON record; fs.writeFileSync prepends
(later writes shadow earlier ones under lookup). -/

/-- Fuel entry of a persisted canonical record (marque, modele, total,
energie). -/
structure FuelEntry where
  marque : String
  modele : String
  total : Int
  energie : Fuel
  deriving DecidableEq, Repr

/-- Persisted canonical record file content.  The region and type keys
are optional because one writer omits them. -/
structure JsonRec where
  year : Int
  month : Int
  region : Option String
  typ : Option String
  data : List FuelEntry
  deriving DecidableEq, Repr

/-- Store of one output directory: file name to record. -/
abbrev Store := List (String × JsonRec)

/-- Lookup model of reading a file from the directory. -/
def storeLookup (s : Store) (k : String) : Option JsonRec :=
  ((s.find? (fun e => e.1 = k)).map (fun e => e.2))

/-- Model of fs.existsSync on a file of the directory. -/
def storeHas (s : Store) (k : String) : Bool :=
  (storeLookup s k).isSome

/-- Model of fs.writeFileSync into the directory. -/
def storeWrite (s : Store) (k : String) (v : JsonRec) : Store :=
  (k, v) :: s

/-- Function filterMissingMonths of scripts/util.js: keeps the months
whose named file does not exist yet, in input order. -/
def filterMissingMonths (months : List MonthInfo) (store : Store)
    (fileNamer : MonthInfo → String) : List MonthInfo :=
  months.filter (fun m => !(storeHas store (fileNamer m)))

/- Tabular-Spreadsheet Extractor: the pure row-processing core of
fetchAndProcessExcel in scripts/parsers/FR.js. -/

/-- Spreadsheet cell as delivered by sheet_to_json with header 1:
a string, a number, or an absent (undefined) cell. -/
inductive Cell where
  | str (s : String)
  | num (n : Int)
  | absent
  deriving DecidableEq, Repr

/-- JS truthiness of a cell value. -/
def cellTruthy : Cell → Bool
  | .str s => s ≠ ""
  | .num n => n ≠ 0
  | .absent => false

/-- JS String(cell) coercion as applied by toString and parseInt. -/
def cellToString : Cell → String
  | .str s => s
  | .num n => toString n
  | .absent => "undefined"

/-- JS row[j] indexing: absent positions are undefined. -/
def cellAt (row : List Cell) (j : Nat) : Cell := row.getD j .absent

/-- Header-row test of fetchAndProcessExcel: some truthy string cell
whose lowercase form contains gazole, essence or electrique. -/
def frHasFuelRef (row : List Cell) : Bool :=
  row.any (fun c => match c with
    | .str s =>
      cellTruthy (.str s) &&
      (jsIncludes (toLowerL s.data) "gazole".data ||
       jsIncludes (toLowerL s.data) "essence".data ||
       jsIncludes (toLowerL s.data) "electrique".data)
    | _ => false)

/-- Scan for the first header row; returns it with the remaining rows. -/
def frFindHeader : List (List Cell) → Option (List Cell × List (List Cell))
  | [] => none
  | row :: rest =>
    if frHasFuelRef row then some (row, rest) else frFindHeader rest

/-- Column-index to fuel-code map built from the header row: every
string cell whose normalized code is neither OTHER nor UNKNOWN. -/
def frColMapping (row : List Cell) : List (Nat × Fuel) :=
  row.enum.filterMap (fun jc => match jc.2 with
    | .str s =>
      let fuelCode := normalizeFrenchFuel s
      if fuelCode ≠ OTHER ∧ fuelCode ≠ UNKNOWN then some (jc.1, fuelCode)
      else none
    | _ => none)

/-- Date-column selection: column 0 when it is not claimed by a fuel
mapping, otherwise none (colDate stays -1). -/
def frColDate (colMapping : List (Nat × Fuel)) : Option Nat :=
  if (colMapping.find? (fun p => p.1 = 0)).isSome then none else some 0

/-- Test of the expected period format, the regex of four digits,
an underscore and two digits anchored at both ends. -/
def isDateYYYYuMM (l : List Char) : Bool :=
  match l with
  | [a, b, c, d, u, e, f] =>
    a.isDigit && b.isDigit && c.isDigit && d.isDigit && (u = '_') &&
    e.isDigit && f.isDigit
  | _ => false

/-- JS object accumulation aggregated[fuelCode] += val, keeping the
first-insertion key order of Object.entries. -/
def addToBucket (acc : List (Fuel × Int)) (f : Fuel) (v : Int) :
    List (Fuel × Int) :=
  match acc with
  | [] => [(f, v)]
  | (g, w) :: rest =>
    if g = f then (g, w + v) :: rest else (g, w) :: addToBucket rest f v

/-- Aggregation of one data row over the mapped fuel columns; zero and
negative parsed values are dropped. -/
def frAggregate (colMapping : List (Nat × Fuel)) (row : List Cell) :
    List (Fuel × Int) :=
  colMapping.foldl (fun acc p =>
    let val := jsParseIntOr0 (cellToString (cellAt row p.1))
    if 0 < val then addToBucket acc p.2 val else acc) []

/-- One data-row step of fetchAndProcessExcel: parse the period cell,
aggregate mapped fuel columns, and write the record unless the file
already exists (write-once guard). -/
def frRowStep (colMapping : List (Nat × Fuel)) (colDate : Option Nat)
    (st : Store) (row : List Cell) : Store :=
  match colDate with
  | none => st
  | some cd =>
    if cellTruthy (cellAt row cd) = false then st
    else
      let dateStr := trimL (cellToString (cellAt row cd)).data
      if isDateYYYYuMM dateStr then
        let yStr := String.mk (dateStr.take 4)
        let mStr := String.mk (dateStr.drop 5)
        let year := jsParseIntOr0 yStr
        let month := jsParseIntOr0 mStr
        let data := (frAggregate colMapping row).map (fun ft =>
          FuelEntry.mk "Toutes marques" "Tous modèles" ft.2 ft.1)
        if data ≠ [] then
          let key := toString year ++ "-" ++ mStr ++ ".json"
          if storeHas st key then st
          else storeWrite st key (JsonRec.mk year month (some "FR")
            (some "all") data)
        else st
      else st

/-- Processing of all rows below the header row. -/
def frProcessRows (colMapping : List (Nat × Fuel)) (colDate : Option Nat)
    (rows : List (List Cell)) (store : Store) : Store :=
  rows.foldl (frRowStep colMapping colDate) store

/-- Pure core of fetchAndProcessExcel of scripts/parsers/FR.js, from
the sheet rows and the output directory state. -/
def fetchAndProcessExcel (rows : List (List Cell)) (store : Store) :
    Store :=
  match frFindHeader rows with
  | none => store
  | some hr =>
    let colMapping := frColMapping hr.1
    let colDate := frColDate colMapping
    frProcessRows colMapping colDate hr.2 store

/-- Synthetic sheet of the spreadsheet round-trip property: the header
row Period, Gazole, Essence, Electrique and one data row for 2023_05. -/
def frClaimSheet : List (List Cell) :=
  [[Cell.str "Period", Cell.str "Gazole", Cell.str "Essence",
    Cell.str "Electrique"],
   [Cell.str "2023_05", Cell.str "100", Cell.str "50", Cell.str "25"]]

/- Positional-PDF Extractor (ACEA), coordinate-based variant of
scripts/parsers/FR.js and text-window variant of the older module. -/

/-- Dash glyphs denoting missing data in the ACEA PDF tables, as listed
in the character class of the coordinate-based extractor. -/
def dashGlyphs : List Char := ['–', '—', '−', '‐', '‑', '‒', '―', '⁃', 'ꟷ']

/-- Number extraction from a located country row, coordinate-based
variant: country-name tokens, sign or percent bearing tokens and
dash-only placeholder tokens are skipped; remaining tokens are parsed
as integers with thousands separators removed, keeping values >= 0. -/
def frPdfNumbers (countryVariations : List String) (items : List String) :
    List Int :=
  items.filterMap (fun text =>
    if countryVariations.any (fun n => jsIncludes text.data n.data) then none
    else if text.data.contains '%' || text.data.contains '+' ||
        text.data.contains '-' then none
    else if text.data ≠ [] && text.data.all (fun c => c ∈ dashGlyphs) then none
    else
      match jsParseInt (String.mk (text.data.filter (fun c => c ≠ ','))) with
      | some n => if 0 ≤ n then some n else none
      | none => none)

/-- Fixed-slot assignment of the coordinate-based extractor: with at
least 14 numbers the current-period values sit at even positions for
BEV, PHEV, HYBRID, Others, Petrol, Diesel; with fewer (the degraded
layout where the hybrid pair was dashes) HYBRID is 0 and the remaining
slots shift up two positions.  Fewer than 6 numbers is an error. -/
def frPdfSlots (numbers : List Int) : Except String (List (Fuel × Int)) :=
  if numbers.length < 6 then
    Except.error "Insufficient data points"
  else
    let hasHybridData := 14 ≤ numbers.length
    let bev := if hasHybridData then (numbers.getD 0 0) else (numbers.getD 0 0)
    let phev := if hasHybridData then (numbers.getD 2 0) else (numbers.getD 2 0)
    let hybrid := if hasHybridData then (numbers.getD 4 0) else 0
    let other := if hasHybridData then (numbers.getD 6 0) else (numbers.getD 4 0)
    let gasoline := if hasHybridData then (numbers.getD 8 0) else (numbers.getD 6 0)
    let diesel := if hasHybridData then (numbers.getD 10 0) else (numbers.getD 8 0)
    Except.ok [(BEV, bev), (PHEV, phev), (HYBRID, hybrid),
      (DIESEL, diesel), (GASOLINE, gasoline), (OTHER, other)]

/-- Pure core of parsePdfData (coordinate-based variant) from a located
country row. -/
def parsePdfDataRow (countryVariations : List String)
    (items : List String) : Except String (List (Fuel × Int)) :=
  frPdfSlots (frPdfNumbers countryVariations items)

/-- Fixed-slot assignment of the older text-window variant of
parsePdfData: always positions 0, 2, 4, 6, 8, 10, with no degraded
layout branch; fewer than 12 numbers is an error. -/
def parsePdfSlots006 (numbers : List Int) :
    Except String (List (Fuel × Int)) :=
  if numbers.length < 12 then
    Except.error "Insufficient data points"
  else
    Except.ok [(BEV, numbers.getD 0 0), (PHEV, numbers.getD 2 0),
      (HYBRID, numbers.getD 4 0), (DIESEL, numbers.getD 10 0),
      (GASOLINE, numbers.getD 8 0), (OTHER, numbers.getD 6 0)]

/-- Record assembled by processAceaMonth: marque and modele markers and
the parsed entries, with no region and no type key in the output
object. -/
def aceaRecord (year month : Int) (rawData : List (Fuel × Int)) : JsonRec :=
  JsonRec.mk year month none none
    (rawData.map (fun it =>
      FuelEntry.mk "Toutes marques" "Tous modèles" it.2 it.1))

/-- Function processAceaMonth: fetch and parse are modelled by the
oracle; success writes the record file, failure leaves the store. -/
def processAceaMonth (oracle : Nat → Nat → Option (List (Fuel × Int)))
    (year month : Nat) (store : Store) : Store :=
  match oracle year month with
  | some rawData =>
    storeWrite store (monthCode year month ++ ".json")
      (aceaRecord year month rawData)
  | none => store

/-- Function collectAceaData: filter the months already persisted and
process each remaining month in order. -/
def collectAceaData (oracle : Nat → Nat → Option (List (Fuel × Int)))
    (months : List MonthInfo) (store : Store) : Store :=
  (filterMissingMonths months store (fun m => m.code ++ ".json")).foldl
    (fun st m => processAceaMonth oracle m.year m.month st) store

/-- Concrete two-month instance for the write-once witness. -/
def cAceaMonths : List MonthInfo := [mkMonth 2024 1, mkMonth 2024 2]

/-- Concrete fetch oracle succeeding only for 2024-02. -/
def cAceaOracle (y m : Nat) : Option (List (Fuel × Int)) :=
  if y = 2024 && m = 2 then some [(Fuel.BEV, 10)] else none

/-- Concrete store already holding the 2024-01 record. -/
def cAceaStore : Store :=
  [("2024-01.json", JsonRec.mk 2024 1 (some "FR") (some "all")
    [FuelEntry.mk "Toutes marques" "Tous modèles" 7 Fuel.DIESEL])]

/- Chinese Excel extractor: the pure row-processing core of
fetchAndProcessExcel in the CN parser module, mirroring the French one
with the Chinese taxonomy, the year-month date pattern with dash or
slash, and Chinese aggregate markers. -/

/-- Header-row test of the Chinese extractor: some truthy string cell
whose normalized code is neither OTHER nor UNKNOWN. -/
def cnHasFuelRef (row : List Cell) : Bool :=
  row.any (fun c => match c with
    | .str s =>
      cellTruthy (.str s) &&
      decide (normalizeChineseFuel s ≠ OTHER) &&
      decide (normalizeChineseFuel s ≠ UNKNOWN)
    | _ => false)

/-- Scan for the first Chinese header row with the remaining rows. -/
def cnFindHeader : List (List Cell) → Option (List Cell × List (List Cell))
  | [] => none
  | row :: rest =>
    if cnHasFuelRef row then some (row, rest) else cnFindHeader rest

/-- Column-index to fuel-code map from the Chinese header row. -/
def cnColMapping (row : List Cell) : List (Nat × Fuel) :=
  row.enum.filterMap (fun jc => match jc.2 with
    | .str s =>
      let fuelCode := normalizeChineseFuel s
      if fuelCode ≠ OTHER ∧ fuelCode ≠ UNKNOWN then some (jc.1, fuelCode)
      else none
    | _ => none)

/-- Test of the Chinese period format: four digits, a dash or slash,
two digits, anchored at both ends. -/
def isDateYYYYsMM (l : List Char) : Bool :=
  match l with
  | [a, b, c, d, u, e, f] =>
    a.isDigit && b.isDigit && c.isDigit && d.isDigit &&
    (u = '-' || u = '/') && e.isDigit && f.isDigit
  | _ => false

/-- One data-row step of the Chinese extractor. -/
def cnRowStep (colMapping : List (Nat × Fuel)) (colDate : Option Nat)
    (st : Store) (row : List Cell) : Store :=
  match colDate with
  | none => st
  | some cd =>
    if cellTruthy (cellAt row cd) = false then st
    else
      let dateStr := trimL (cellToString (cellAt row cd)).data
      if isDateYYYYsMM dateStr then
        let yStr := String.mk (dateStr.take 4)
        let mStr := String.mk (dateStr.drop 5)
        let year := jsParseIntOr0 yStr
        let month := jsParseIntOr0 mStr
        let data := (frAggregate colMapping row).map (fun ft =>
          FuelEntry.mk "所有品牌" "所有车型" ft.2 ft.1)
        if data ≠ [] then
          let key := toString year ++ "-" ++ mStr ++ ".json"
          if storeHas st key then st
          else storeWrite st key (JsonRec.mk year month (some "CN")
            (some "all") data)
        else st
      else st

/-- Pure core of the Chinese fetchAndProcessExcel from the sheet rows
and the output directory state. -/
def cnFetchAndProcessExcel (rows : List (List Cell)) (store : Store) :
    Store :=
  match cnFindHeader rows with
  | none => store
  | some hr =>
    let colMapping := cnColMapping hr.1
    let colDate := frColDate colMapping
    (hr.2).foldl (cnRowStep colMapping colDate) store

/-- Synthetic Chinese sheet with a fuel-cell column. -/
def cnClaimSheet : List (List Cell) :=
  [[Cell.str "月份", Cell.str "燃料电池汽车"],
   [Cell.str "2023-05", Cell.str "10"]]

/-- Synthetic ACEA country row with the hybrid pair replaced by dash
placeholders: BEV pair, PHEV pair, dashes, Others pair, Petrol pair,
Diesel pair, Total pair, and a trailing percentage token. -/
def frDegradedRow : List String :=
  ["France", "1,000", "900", "500", "450", "–", "–", "2,000", "1,900",
   "1,500", "1,400", "5,300", "4,930", "6,000", "5,800", "+7.5%"]

/- Collection driver: collect_all.js runs every configured parser of
every zone sequentially with no per-parser error handler, so a
rejection propagates to the top-level catch and exit(1); a missing
parser script only warns.  Parser execution is modelled by an oracle
from parser reference to an optional result (none when the script file
is absent). -/

/-- Parser reference of the zone registry (script plus function). -/
abbrev ParserRef := String

/-- Sequential execution of one zone's parsers: missing scripts are
skipped with a warning, a throwing parser aborts the loop, and the
completed parsers are logged in order. -/
def runZoneParsers (impl : ParserRef → Option (Except String Unit)) :
    List ParserRef → List ParserRef × Option String
  | [] => ([], none)
  | p :: rest =>
    match impl p with
    | none => runZoneParsers impl rest
    | some (Except.ok _) =>
      let r := runZoneParsers impl rest
      (p :: r.1, r.2)
    | some (Except.error e) => ([], some e)

/-- Sequential execution over the zones: an error escaping one zone's
parser aborts the remaining zones. -/
def runAllParsers (impl : ParserRef → Option (Except String Unit)) :
    List (String × List ParserRef) → List ParserRef × Option String
  | [] => ([], none)
  | z :: rest =>
    match runZoneParsers impl z.2 with
    | (done, none) =>
      let r := runAllParsers impl rest
      (done ++ r.1, r.2)
    | (done, some e) => (done, some e)

/-- Top level of collect_all.js: an unknown requested zone exits 1
before running anything; otherwise the zones are run and any escaped
error turns into exit 1 via the final catch, else exit 0. -/
def collectAll (zones : List (String × List ParserRef))
    (target : Option String)
    (impl : ParserRef → Option (Except String Unit)) :
    Nat × List ParserRef :=
  match target with
  | some t =>
    match zones.find? (fun z => z.1 = t) with
    | none => (1, [])
    | some z =>
      match runAllParsers impl [z] with
      | (done, none) => (0, done)
      | (done, some _) => (1, done)
  | none =>
    match runAllParsers impl zones with
    | (done, none) => (0, done)
    | (done, some _) => (1, done)

/-- Record written by the Dutch saveMonthlyData. -/
def nlRecord (m : MonthInfo) (fuelData : List (Fuel × Int)) : JsonRec :=
  JsonRec.mk m.year m.month (some "NL") (some "all")
    (fuelData.map (fun it => FuelEntry.mk "ALL" "ALL" it.2 it.1))

/-- Month loop of the Dutch fetchAllEVData: each month's fetch is
wrapped in its own try/catch, a thrown error only increments the error
count, an empty result is not saved, and processing always continues
to the next month.  Returns success count, error count and the store. -/
def runMonthsNL (oracle : String → Except String (List (Fuel × Int)))
    (months : List MonthInfo) (store : Store) : Nat × Nat × Store :=
  months.foldl (fun acc m =>
    match oracle m.code with
    | Except.error _ => (acc.1, acc.2.1 + 1, acc.2.2)
    | Except.ok fuelData =>
      if fuelData ≠ [] then
        (acc.1 + 1, acc.2.1,
          storeWrite acc.2.2 (m.code ++ ".json") (nlRecord m fuelData))
      else (acc.1, acc.2.1 + 1, acc.2.2)) (0, 0, store)

/-- Two-zone configuration whose first parser throws. -/
def cZones : List (String × List ParserRef) := [("A", ["pA"]), ("B", ["pB"])]

/-- Parser oracle: pA rejects, every other parser succeeds. -/
def cImpl : ParserRef → Option (Except String Unit) :=
  fun p => if p = "pA" then some (Except.error "boom") else some (Except.ok ())

/-- Concrete month oracle: 2024-01 throws, everything else returns one
BEV entry. -/
def cOracle (code : String) : Except String (List (Fuel × Int)) :=
  if code = "2024-01" then Except.error "reset" else Except.ok [(BEV, 1)]

/- Multi-Dimensional-API Extractor: parseJsonStat of the NO parser
module.  The nested result object is modelled as a lookup function from
month code and fuel code to the stored value; the four nested loops
carry the running valueIndex exactly as the source does. -/

/-- Nested results object: month code to fuel code to value. -/
abbrev StMap := String → String → Option Int

/-- Assignment results[month][fuel] = val on the nested object. -/
def jsUpdate (st : StMap) (m f : String) (v : Int) : StMap :=
  fun m' f' => if m' = m ∧ f' = f then some v else st m' f'

/-- JS value[valueIndex] with the or-zero guard: an absent or null
entry collapses to 0. -/
def valAt (value : List (Option Int)) (vi : Nat) : Int :=
  (value.getD vi none).getD 0

/-- Innermost loop over iTime, writing one value per period and
incrementing the flat value index. -/
def loopTime (months fuels : List String) (value : List (Option Int))
    (fIdx : Nat) : Nat → Nat → Nat → StMap → StMap × Nat
  | 0, _, vi, st => (st, vi)
  | r + 1, t, vi, st =>
    loopTime months fuels value fIdx r (t + 1) (vi + 1)
      (jsUpdate st (months.getD t "") (fuels.getD fIdx "") (valAt value vi))

/-- Loop over iContents, re-running the time loop from period 0. -/
def loopContents (months fuels : List String) (value : List (Option Int))
    (fIdx : Nat) : Nat → Nat → Nat → StMap → StMap × Nat
  | 0, _, vi, st => (st, vi)
  | r + 1, d, vi, st =>
    let sv := loopTime months fuels value fIdx d 0 vi st
    loopContents months fuels value fIdx r d sv.2 sv.1

/-- Loop over iFuel, advancing the fuel index. -/
def loopFuel (months fuels : List String) (value : List (Option Int)) :
    Nat → Nat → Nat → Nat → Nat → StMap → StMap × Nat
  | 0, _, _, _, vi, st => (st, vi)
  | r + 1, fIdx, c, d, vi, st =>
    let sv := loopContents months fuels value fIdx c d vi st
    loopFuel months fuels value r (fIdx + 1) c d sv.2 sv.1

/-- Outermost loop over iTypeReg. -/
def loopReg (months fuels : List String) (value : List (Option Int)) :
    Nat → Nat → Nat → Nat → Nat → StMap → StMap × Nat
  | 0, _, _, _, vi, st => (st, vi)
  | r + 1, b, c, d, vi, st =>
    let sv := loopFuel months fuels value b 0 c d vi st
    loopReg months fuels value r b c d sv.2 sv.1

/-- JSON-stat2 response: the declared dimension ordering (the id
array), the category index objects of the fuel and time dimensions,
the size vector aligned with the declared ordering, and the flat value
array (null entries allowed). -/
structure JsonStatResp where
  dimId : List String
  fuelIndex : List (String × Nat)
  timeIndex : List (String × Nat)
  size : List Nat
  value : List (Option Int)

/-- Stable insertion into an index-sorted pair list. -/
def insertByIdx (p : String × Nat) : List (String × Nat) →
    List (String × Nat)
  | [] => [p]
  | q :: rest =>
    if p.2 ≤ q.2 then p :: q :: rest else q :: insertByIdx p rest

/-- Stable sort of the category pairs by index value. -/
def sortPairs : List (String × Nat) → List (String × Nat)
  | [] => []
  | p :: rest => insertByIdx p (sortPairs rest)

/-- Category codes sorted by their index value, as built by
Object.entries(...).sort((a, b) => a[1] - b[1]).map of the code. -/
def sortByIdx (l : List (String × Nat)) : List String :=
  (sortPairs l).map (fun p => p.1)

/-- Function parseJsonStat of the NO parser module: the per-dimension
category orders are read from the response, but the size vector is
destructured positionally as TypeRegistrering, DrivstoffType,
ContentsCode, Tid, ignoring the declared dimension ordering. -/
def parseJsonStat (resp : JsonStatResp) : StMap :=
  let fuelTypes := sortByIdx resp.fuelIndex
  let months := sortByIdx resp.timeIndex
  let sizeTypeReg := resp.size.getD 0 0
  let sizeFuel := resp.size.getD 1 0
  let sizeContents := resp.size.getD 2 0
  let sizeTime := resp.size.getD 3 0
  (loopReg months fuelTypes resp.value sizeTypeReg sizeFuel sizeContents
    sizeTime 0 (fun _ _ => none)).1

/-- Modelled from the spec: the row-major flat index of the coordinate
vector that selects the given fuel and period positions and the first
category of every other dimension, walking the dimensions in the order
the response declares. -/
def flatIndex (dimId : List String) (size : List Nat) (fi ti : Nat) : Nat :=
  (dimId.zip size).foldl (fun acc p =>
    acc * p.2 + (if p.1 = "DrivstoffType" then fi
      else if p.1 = "Tid" then ti else 0)) 0

/-- Modelled from the spec: the period to fuel to value mapping implied
by row-major iteration over the flat value array under the declared
dimension ordering and size vector. -/
def specRowMajor (resp : JsonStatResp) (m f : String) : Option Int :=
  let fuels := sortByIdx resp.fuelIndex
  let months := sortByIdx resp.timeIndex
  match months.findIdx? (fun x => x = m), fuels.findIdx? (fun x => x = f) with
  | some ti, some fi =>
    some (valAt resp.value (flatIndex resp.dimId resp.size fi ti))
  | _, _ => none

/-- Response whose declared dimension ordering differs from the one
parseJsonStat assumes: the fuel dimension comes first and the
registration type second, so size = [2, 1, 1, 2]. -/
def cResp : JsonStatResp :=
  { dimId := ["DrivstoffType", "TypeRegistrering", "ContentsCode", "Tid"],
    fuelIndex := [("19", 0), ("20", 1)],
    timeIndex := [("2024M01", 0), ("2024M02", 1)],
    size := [2, 1, 1, 2],
    value := [some 1, some 2, some 3, some 4] }

/-- Response declared in the assumed dimension order with two fuels
and three periods: the dimensional-flattening example of the spec. -/
def gResp : JsonStatResp :=
  { dimId := ["TypeRegistrering", "DrivstoffType", "ContentsCode", "Tid"],
    fuelIndex := [("19", 0), ("20", 1)],
    timeIndex := [("2024M01", 0), ("2024M02", 1), ("2024M03", 2)],
    size := [1, 2, 1, 3],
    value := [some 10, some 20, some 30, some 40, some 50, some 60] }

theorem jsIncludes_iff_substring (hay needle : List Char) :
    jsIncludes hay needle = true ↔ needle <:+: hay := by
  induction hay with
  | nil =>
    rw [jsIncludes]
    constructor
    · intro h
      split at h
      · next hp =>
        have := List.isPrefixOf_iff_prefix.mp hp
        exact this.isInfix
      · exact absurd h (by simp)
    · intro h
      have : needle = [] := List.eq_nil_of_infix_nil h
      subst this
      simp [List.isPrefixOf]
  | cons a t ih =>
    rw [jsIncludes]
    constructor
    · intro h
      split at h
      · next hp => exact (List.isPrefixOf_iff_prefix.mp hp).isInfix
      · exact List.infix_cons (ih.mp h)
    · intro h
      split
      · rfl
      · next hp =>
        rcases h with ⟨s, u, habc⟩
        cases s with
        | nil =>
          exfalso
          apply hp
          apply List.isPrefixOf_iff_prefix.mpr
          exact ⟨u, by simpa using habc⟩
        | cons x xs =>
          apply ih.mpr
          exact ⟨xs, u, by simpa using congrArg List.tail habc⟩

theorem jsIncludes_length_le {hay needle : List Char}
    (h : jsIncludes hay needle = true) : needle.length ≤ hay.length :=
  ((jsIncludes_iff_substring hay needle).mp h).length_le

theorem jsIncludes_eq_of_length {hay needle : List Char}
    (h : jsIncludes hay needle = true) (hl : needle.length = hay.length) :
    needle = hay :=
  ((jsIncludes_iff_substring hay needle).mp h).eq_of_length hl

theorem jsIncludes_refl (l : List Char) : jsIncludes l l = true :=
  (jsIncludes_iff_substring l l).mpr (List.infix_refl l)

theorem frScan_stable (l₂ : List (List Char × Fuel)) (clean : List Char)
    (c : Fuel) (B : Nat)
    (hle : ∀ q ∈ l₂, jsIncludes clean q.1 = true → q.1.length ≤ B)
    (hne : ∀ q ∈ l₂, q.1 ≠ clean) :
    frScan clean l₂ (some c) B = c := by
  induction l₂ with
  | nil => rfl
  | cons q rest ih =>
    obtain ⟨a, cc⟩ := q
    rw [frScan]
    rw [if_neg, if_neg]
    · exact ih (fun r hr => hle r (List.mem_cons_of_mem _ hr))
        (fun r hr => hne r (List.mem_cons_of_mem _ hr))
    · intro hcontra
      rw [Bool.and_eq_true, decide_eq_true_eq] at hcontra
      exact absurd (hle (a, cc) (List.mem_cons_self _ _) hcontra.1)
        (Nat.not_le_of_lt hcontra.2)
    · intro hcontra
      exact hne (a, cc) (List.mem_cons_self _ _) hcontra.symm

theorem frScan_longest (l₁ : List (List Char × Fuel))
    (p : List Char × Fuel) (l₂ : List (List Char × Fuel))
    (clean : List Char) (best : Option Fuel) (B : Nat)
    (hB : B < p.1.length)
    (hp : jsIncludes clean p.1 = true)
    (h₁ : ∀ q ∈ l₁, jsIncludes clean q.1 = true → q.1.length < p.1.length)
    (h₂ : ∀ q ∈ l₂, jsIncludes clean q.1 = true → q.1.length ≤ p.1.length) :
    frScan clean (l₁ ++ p :: l₂) best B = p.2 := by
  induction l₁ generalizing best B with
  | nil =>
    obtain ⟨a, c⟩ := p
    simp only [List.nil_append]
    rw [frScan]
    by_cases hc : clean = a
    · rw [if_pos hc]
    · rw [if_neg hc, if_pos (by rw [Bool.and_eq_true, decide_eq_true_eq]; exact ⟨hp, hB⟩)]
      apply frScan_stable _ _ _ _ h₂
      intro q hq hqc
      have hqinc : jsIncludes clean q.1 = true := by
        rw [hqc]; exact jsIncludes_refl clean
      have hqlen : q.1.length ≤ a.length := h₂ q hq hqinc
      have halen : a.length ≤ clean.length := jsIncludes_length_le hp
      have : a.length = clean.length := by
        have : clean.length = q.1.length := by rw [hqc]
        omega
      exact hc ((jsIncludes_eq_of_length hp this).symm)
  | cons q rest ih =>
    obtain ⟨a, c⟩ := q
    simp only [List.cons_append]
    rw [frScan]
    have hnotex : clean ≠ a := by
      intro hc
      have hinc : jsIncludes clean a = true := by
        rw [hc]; exact jsIncludes_refl a
      have hlt : a.length < p.1.length :=
        h₁ (a, c) (List.mem_cons_self _ _) hinc
      have : p.1.length ≤ clean.length := jsIncludes_length_le hp
      rw [hc] at this
      omega
    rw [if_neg hnotex]
    by_cases hup : (jsIncludes clean a && decide (B < a.length)) = true
    · rw [if_pos hup]
      rw [Bool.and_eq_true] at hup
      exact ih (some c) a.length
        (h₁ (a, c) (List.mem_cons_self _ _) hup.1)
        (fun q hq h => h₁ q (List.mem_cons_of_mem _ hq) h)
    · rw [if_neg hup]
      exact ih best B hB
        (fun q hq h => h₁ q (List.mem_cons_of_mem _ hq) h)

/-- C1: the claim fails on the German normalizer.  For the label
"Plug-in Hybrid" the registered aliases matched by containment are
"hybrid" (code HYBRID, length 6, registered first) and
"plug-in hybrid" (code PHEV, length 14, the longest match), yet
mapGermanFuelType returns HYBRID, the code of the shorter alias:
the generic "hybrid" alias shadows the more specific one. -/
theorem mapGermanFuelType_not_longest_counterexample :
    mapGermanFuelType "Plug-in Hybrid" = HYBRID ∧ HYBRID ≠ PHEV ∧
    germanPairs.filter
        (fun q => jsIncludes (trimL (toLowerL "Plug-in Hybrid".data)) q.1) =
      [("hybrid".data, HYBRID), ("plug-in hybrid".data, PHEV)] := by
  decide

/-- C1 (amended): the French normalizer implements longest-alias
containment matching: for any nonempty label, if a registered alias of
FRENCH_FUEL_MAP is contained in the cleaned label and every alias
registered before it matches only with strictly smaller length while
every alias registered after it matches only with no greater length,
then normalizeFrenchFuel returns that alias's code; in particular
normalizing "Hybride Rechargeable" yields PHEV, not HYBRID.  The German
normalizer, by contrast, returns the first registered contained alias,
so normalizing "Plug-in Hybrid" yields HYBRID instead of PHEV. -/
theorem normalizeFrenchFuel_longest_match :
    (∀ (label : String) (l₁ l₂ : List (List Char × Fuel))
        (p : List Char × Fuel),
      frPairs = l₁ ++ p :: l₂ →
      label ≠ "" →
      jsIncludes (cleanFR label.data) p.1 = true →
      0 < p.1.length →
      (∀ q ∈ l₁, jsIncludes (cleanFR label.data) q.1 = true →
        q.1.length < p.1.length) →
      (∀ q ∈ l₂, jsIncludes (cleanFR label.data) q.1 = true →
        q.1.length ≤ p.1.length) →
      normalizeFrenchFuel label = p.2) ∧
    normalizeFrenchFuel "Hybride Rechargeable" = PHEV ∧
    mapGermanFuelType "Plug-in Hybrid" = HYBRID := by
  refine ⟨?_, by decide, by decide⟩
  intro label l₁ l₂ p hsplit hne hp hpos h₁ h₂
  rw [normalizeFrenchFuel, if_neg hne, hsplit]
  exact frScan_longest l₁ p l₂ _ none 0 hpos hp h₁ h₂

/-- C1 witness: the general longest-match theorem applied at the
concrete label "Hybride Rechargeable" with the PHEV alias
"hybride rechargeable" as the longest match inside FRENCH_FUEL_MAP. -/
theorem normalizeFrenchFuel_longest_match_witness :
    normalizeFrenchFuel "Hybride Rechargeable" = PHEV :=
  normalizeFrenchFuel_longest_match.1 "Hybride Rechargeable"
    [("gazole (thermique)".data, DIESEL), ("diesel".data, DIESEL),
     ("essence (thermique)".data, GASOLINE), ("essence".data, GASOLINE),
     ("hybride gazole non rechargeable".data, HYBRID),
     ("hybride essence non rechargeable".data, HYBRID),
     ("gazole (y compris hybrides non rechargeables)".data, HYBRID),
     ("essence (y compris hybrides non rechargeables)".data, HYBRID)]
    [("electrique".data, BEV), ("electric".data, BEV), ("bev".data, BEV),
     ("gaz & nd".data, OTHER), ("lpg".data, OTHER), ("cng".data, OTHER)]
    ("hybride rechargeable".data, PHEV)
    (by decide) (by decide) (by decide) (by decide) (by decide) (by decide)

theorem firstContaining_eq_unknown (n : List Char)
    (l : List (List Char × Fuel))
    (h : ∀ q ∈ l, jsIncludes n q.1 = false) :
    firstContaining n l = UNKNOWN := by
  induction l with
  | nil => rfl
  | cons q rest ih =>
    obtain ⟨k, v⟩ := q
    rw [firstContaining, if_neg]
    · exact ih (fun r hr => h r (List.mem_cons_of_mem _ hr))
    · simp [h (k, v) (List.mem_cons_self _ _)]

/-- C2: the claim fails on the Dutch normalizer.  mapFuelType of
scripts/parsers/NL.js maps the empty label to OTHER, not UNKNOWN,
because it is a plain object lookup whose default covers the empty
string like any other unregistered key. -/
theorem mapFuelTypeNL_empty_counterexample :
    mapFuelTypeNL "" = OTHER ∧ OTHER ≠ UNKNOWN := by
  decide

/-- C2 (amended): the Swedish normalizer satisfies the claim in full
(each registered alias returns its declared code, the empty label
returns UNKNOWN, and an unregistered nonempty label returns OTHER).
The Dutch normalizer returns each registered alias's declared code and
OTHER for every unregistered label, including the empty one (so empty
yields OTHER, not UNKNOWN).  The German normalizer returns UNKNOWN for
the empty label, returns UNKNOWN (not OTHER) for a label containing no
registered alias, returns the declared code for every registered alias
except "plug-in-hybrid" and "plug-in hybrid", which return HYBRID
instead of their declared PHEV. -/
theorem fuelNormalizers_totality :
    (∀ p ∈ swPairsRaw, normalizeSwedishFuel p.1 = p.2) ∧
    normalizeSwedishFuel "" = UNKNOWN ∧
    (∀ label : String, label ≠ "" →
      (∀ p ∈ swPairsRaw, toLowerL (trimL label.data) ≠ toLowerL p.1.data) →
      normalizeSwedishFuel label = OTHER) ∧
    (∀ p ∈ nlMapping, mapFuelTypeNL p.1 = p.2) ∧
    (∀ s : String, (∀ p ∈ nlMapping, p.1 ≠ s) → mapFuelTypeNL s = OTHER) ∧
    mapGermanFuelType "" = UNKNOWN ∧
    (∀ s : String,
      (∀ q ∈ germanPairs, jsIncludes (trimL (toLowerL s.data)) q.1 = false) →
      mapGermanFuelType s = UNKNOWN) ∧
    (∀ p ∈ germanPairs, p.1 ≠ "plug-in-hybrid".data →
      p.1 ≠ "plug-in hybrid".data →
      mapGermanFuelType (String.mk p.1) = p.2) ∧
    mapGermanFuelType "plug-in-hybrid" = HYBRID ∧
    mapGermanFuelType "plug-in hybrid" = HYBRID := by
  refine ⟨by decide, by decide, ?_, by decide, ?_, by decide, ?_, by decide,
    by decide, by decide⟩
  · intro label hne hnone
    rw [normalizeSwedishFuel, if_neg hne]
    have : swPairsRaw.find?
        (fun p => decide (toLowerL (trimL label.data) = toLowerL p.1.data)) =
        none := by
      rw [List.find?_eq_none]
      intro p hp
      simp only [decide_eq_true_eq]
      exact hnone p hp
    rw [this]
    rfl
  · intro s hnone
    rw [mapFuelTypeNL]
    have : nlMapping.find? (fun p => decide (p.1 = s)) = none := by
      rw [List.find?_eq_none]
      intro p hp
      simp only [decide_eq_true_eq]
      exact hnone p hp
    rw [this]
    rfl
  · intro s hnone
    rw [mapGermanFuelType]
    by_cases hs : s = ""
    · rw [if_pos hs]
    · rw [if_neg hs]
      exact firstContaining_eq_unknown _ _ hnone

/-- C2 witness: the totality theorem applied at concrete labels:
a registered Swedish alias, an unregistered Swedish label, an
unregistered Dutch label and an unregistered German label. -/
theorem fuelNormalizers_totality_witness :
    normalizeSwedishFuel "diesel" = DIESEL ∧
    normalizeSwedishFuel "kerosene" = OTHER ∧
    mapFuelTypeNL "Kerosine" = OTHER ∧
    mapGermanFuelType "kerosin" = UNKNOWN :=
  ⟨fuelNormalizers_totality.1 ("diesel", DIESEL) (by decide),
   fuelNormalizers_totality.2.2.1 "kerosene" (by decide) (by decide),
   fuelNormalizers_totality.2.2.2.2.1 "Kerosine" (by decide),
   fuelNormalizers_totality.2.2.2.2.2.2.1 "kerosin" (by decide)⟩

theorem fullYears_eq (s d : Nat) :
    (List.range' s d).flatMap
        (fun y => (List.range' 1 12).map (fun m => mkMonth y m)) =
      (List.range (12 * d)).map (fun k => mkMonth (s + k / 12) (k % 12 + 1)) := by
  induction d with
  | zero => rfl
  | succ d ih =>
    rw [List.range'_concat, List.flatMap_append, ih]
    have h12 : 12 * (d + 1) = 12 * d + 12 := by ring
    rw [h12, List.range_add, List.map_append, List.map_map]
    congr 1
    · simp only [List.flatMap_cons, List.flatMap_nil, List.append_nil,
        List.range'_eq_map_range, List.map_map]
      apply List.map_congr_left
      intro j hj
      have hj12 : j < 12 := List.mem_range.mp hj
      have hdiv : (12 * d + j) / 12 = d := by omega
      have hmod : (12 * d + j) % 12 = j := by omega
      have h1j : 1 + j = j + 1 := by omega
      simp only [Function.comp_apply, hdiv, hmod, h1j, one_mul]

theorem getMonthsSinceStart_le (s cy cm : Nat) (hs : s ≤ cy) (hcm : cm ≤ 12) :
    getMonthsSinceStart s cy cm =
      (List.range (12 * (cy - s) + cm)).map
        (fun k => mkMonth (s + k / 12) (k % 12 + 1)) := by
  have hsplit : cy + 1 - s = (cy - s) + 1 := by omega
  rw [getMonthsSinceStart, hsplit, List.range'_concat, List.flatMap_append]
  have hcy : s + 1 * (cy - s) = cy := by omega
  rw [hcy]
  have hmain :
      (List.range' s (cy - s)).flatMap (fun year =>
        (List.range' 1 (if year = cy then cm else 12)).map
          (fun month => mkMonth year month)) =
      (List.range' s (cy - s)).flatMap
        (fun y => (List.range' 1 12).map (fun m => mkMonth y m)) := by
    apply List.flatMap_congr
    intro y hy
    have : y < cy := by
      have := List.mem_range'_1.mp hy
      omega
    rw [if_neg (by omega)]
  rw [hmain, fullYears_eq, List.range_add, List.map_append, List.map_map]
  congr 1
  · simp only [List.flatMap_cons, List.flatMap_nil, List.append_nil,
      if_pos rfl, List.range'_eq_map_range, List.map_map]
    apply List.map_congr_left
    intro j hj
    have hj' : j < cm := List.mem_range.mp hj
    have hdiv : (12 * (cy - s) + j) / 12 = cy - s := by omega
    have hmod : (12 * (cy - s) + j) % 12 = j := by omega
    have h1j : 1 + j = j + 1 := by omega
    have hcy2 : s + (cy - s) = cy := by omega
    simp only [Function.comp_apply, hdiv, hmod, h1j, one_mul, hcy2]

/-- C9: the month key generator agrees with the spec sequence: for any
start year and wall clock with a valid month number, getMonthsSinceStart
returns the ordered, gapless, strictly increasing sequence of month keys
from January of the start year through the current month inclusive, and
the empty sequence when the start year is strictly after the current
year. -/
theorem getMonthsSinceStart_complete (s cy cm : Nat) (hcm : cm ≤ 12) :
    getMonthsSinceStart s cy cm = specMonthKeys s cy cm := by
  rw [specMonthKeys]
  by_cases hs : cy < s
  · rw [if_pos hs, getMonthsSinceStart]
    have : cy + 1 - s = 0 := by omega
    rw [this]
    rfl
  · rw [if_neg hs]
    exact getMonthsSinceStart_le s cy cm (by omega) hcm

/-- C9 witness: at wall clock 2021-03, generate(2020) returns exactly
the fifteen keys 2020-01 through 2021-03, and a future start year
returns the empty sequence. -/
theorem getMonthsSinceStart_complete_witness :
    getMonthsSinceStart 2020 2021 3 = specMonthKeys 2020 2021 3 ∧
    (getMonthsSinceStart 2020 2021 3).length = 15 ∧
    (getMonthsSinceStart 2020 2021 3).map (fun m => m.code) =
      ["2020-01", "2020-02", "2020-03", "2020-04", "2020-05", "2020-06",
       "2020-07", "2020-08", "2020-09", "2020-10", "2020-11", "2020-12",
       "2021-01", "2021-02", "2021-03"] ∧
    getMonthsSinceStart 2022 2021 3 = specMonthKeys 2022 2021 3 ∧
    getMonthsSinceStart 2022 2021 3 = [] :=
  ⟨getMonthsSinceStart_complete 2020 2021 3 (by decide), by decide, by decide,
   getMonthsSinceStart_complete 2022 2021 3 (by decide), by decide⟩

/-- C7: the claim fails on the code.  Extracting the synthetic sheet
yields a record for 2023-05 whose entries are GASOLINE:50 and BEV:25
only: no DIESEL entry exists, because FRENCH_FUEL_MAP registers the
aliases Gazole (thermique) and Diesel but not the bare column header
Gazole, so the Gazole column is not mapped and its value 100 is
dropped. -/
theorem fetchAndProcessExcel_no_diesel_counterexample :
    storeLookup (fetchAndProcessExcel frClaimSheet []) "2023-05.json" =
      some (JsonRec.mk 2023 5 (some "FR") (some "all")
        [FuelEntry.mk "Toutes marques" "Tous modèles" 50 GASOLINE,
         FuelEntry.mk "Toutes marques" "Tous modèles" 25 BEV]) ∧
    (((storeLookup (fetchAndProcessExcel frClaimSheet [])
        "2023-05.json").getD (JsonRec.mk 0 0 none none [])).data.any
      (fun e => e.energie = DIESEL)) = false ∧
    normalizeFrenchFuel "Gazole" = OTHER := by
  decide

/-- C7 (amended): given the synthetic sheet with header row Period,
Gazole, Essence, Electrique and the single data row 2023_05, 100, 50,
25, the spreadsheet extractor produces exactly one record, keyed
2023-05, with entries GASOLINE:50 and BEV:25; the Gazole column is not
extracted because no registered French alias matches the bare label
Gazole. -/
theorem fetchAndProcessExcel_roundTrip :
    fetchAndProcessExcel frClaimSheet [] =
      [("2023-05.json", JsonRec.mk 2023 5 (some "FR") (some "all")
        [FuelEntry.mk "Toutes marques" "Tous modèles" 50 GASOLINE,
         FuelEntry.mk "Toutes marques" "Tous modèles" 25 BEV])] := by
  decide

theorem storeLookup_write_self (s : Store) (k : String) (v : JsonRec) :
    storeLookup (storeWrite s k v) k = some v := by
  simp [storeLookup, storeWrite, List.find?]

theorem storeLookup_write_ne (s : Store) (k k' : String) (v : JsonRec)
    (h : k' ≠ k) : storeLookup (storeWrite s k' v) k = storeLookup s k := by
  simp [storeLookup, storeWrite, List.find?, h]

theorem storeHas_write_mono (s : Store) (k k' : String) (v : JsonRec)
    (h : storeHas s k = true) : storeHas (storeWrite s k' v) k = true := by
  by_cases hk : k' = k
  · subst hk
    simp [storeHas, storeLookup_write_self]
  · rw [storeHas, storeLookup_write_ne s k k' v hk]
    exact h

theorem storeHas_process_mono (o : Nat → Nat → Option (List (Fuel × Int)))
    (y m : Nat) (s : Store) (k : String) (h : storeHas s k = true) :
    storeHas (processAceaMonth o y m s) k = true := by
  rw [processAceaMonth]
  cases o y m with
  | none => exact h
  | some d => exact storeHas_write_mono _ _ _ _ h

theorem storeHas_fold_mono (o : Nat → Nat → Option (List (Fuel × Int)))
    (l : List MonthInfo) (k : String) :
    ∀ s : Store, storeHas s k = true →
    storeHas (l.foldl (fun st mo => processAceaMonth o mo.year mo.month st) s)
      k = true := by
  induction l with
  | nil => intro s h; exact h
  | cons mo rest ih =>
    intro s h
    exact ih _ (storeHas_process_mono o mo.year mo.month s k h)

theorem storeLookup_process_ne (o : Nat → Nat → Option (List (Fuel × Int)))
    (y m : Nat) (s : Store) (k : String)
    (h : monthCode y m ++ ".json" ≠ k) :
    storeLookup (processAceaMonth o y m s) k = storeLookup s k := by
  rw [processAceaMonth]
  cases o y m with
  | none => rfl
  | some d => exact storeLookup_write_ne s k _ _ h

theorem storeLookup_fold_ne (o : Nat → Nat → Option (List (Fuel × Int)))
    (l : List MonthInfo) (k : String)
    (h : ∀ mo ∈ l, monthCode mo.year mo.month ++ ".json" ≠ k) :
    ∀ s : Store,
    storeLookup
      (l.foldl (fun st mo => processAceaMonth o mo.year mo.month st) s) k =
      storeLookup s k := by
  induction l with
  | nil => intro s; rfl
  | cons mo rest ih =>
    intro s
    rw [List.foldl_cons,
      ih (fun r hr => h r (List.mem_cons_of_mem _ hr)),
      storeLookup_process_ne o mo.year mo.month s k
        (h mo (List.mem_cons_self _ _))]

theorem storeHas_fold_writes (o : Nat → Nat → Option (List (Fuel × Int)))
    (l : List MonthInfo) (mo : MonthInfo) (hmo : mo ∈ l)
    (ho : o mo.year mo.month ≠ none) :
    ∀ s : Store,
    storeHas
      (l.foldl (fun st m => processAceaMonth o m.year m.month st) s)
      (monthCode mo.year mo.month ++ ".json") = true := by
  induction l with
  | nil => exact absurd hmo (List.not_mem_nil mo)
  | cons hd rest ih =>
    intro s
    rw [List.foldl_cons]
    rcases List.mem_cons.mp hmo with heq | hmem
    · subst heq
      apply storeHas_fold_mono
      rw [processAceaMonth]
      cases hov : o mo.year mo.month with
      | none => exact absurd hov ho
      | some d =>
        simp [storeHas, storeLookup_write_self]
    · exact ih hmem _

theorem fold_noop (o : Nat → Nat → Option (List (Fuel × Int)))
    (l : List MonthInfo) (h : ∀ mo ∈ l, o mo.year mo.month = none) :
    ∀ s : Store,
    l.foldl (fun st mo => processAceaMonth o mo.year mo.month st) s = s := by
  induction l with
  | nil => intro s; rfl
  | cons mo rest ih =>
    intro s
    rw [List.foldl_cons, processAceaMonth, h mo (List.mem_cons_self _ _)]
    exact ih (fun r hr => h r (List.mem_cons_of_mem _ hr)) s

/-- C3: the collection orchestrator is write-once and idempotent: a
record file already present in the store is never overwritten by a
collection run (its lookup is unchanged), and running collection twice
in succession over an unchanged store and fetch oracle leaves the store
of persisted records identical after the second run. -/
theorem collectAceaData_write_once_idempotent
    (oracle : Nat → Nat → Option (List (Fuel × Int)))
    (months : List MonthInfo) (store : Store)
    (hcode : ∀ mo ∈ months, mo.code = monthCode mo.year mo.month) :
    (∀ k, storeHas store k = true →
      storeLookup (collectAceaData oracle months store) k =
        storeLookup store k) ∧
    collectAceaData oracle months (collectAceaData oracle months store) =
      collectAceaData oracle months store := by
  constructor
  · intro k hk
    rw [collectAceaData]
    apply storeLookup_fold_ne
    intro mo hmo
    have hmem := List.mem_filter.mp hmo
    have hnothas : storeHas store (mo.code ++ ".json") = false := by
      have := hmem.2
      rwa [Bool.not_eq_eq_eq_not, Bool.not_true] at this
    intro hkey
    rw [hcode mo hmem.1, hkey] at hnothas
    rw [hk] at hnothas
    exact absurd hnothas (by decide)
  · conv_lhs => rw [collectAceaData]
    apply fold_noop
    intro mo hmo
    have hmem := List.mem_filter.mp hmo
    have hnothas :
        storeHas (collectAceaData oracle months store)
          (mo.code ++ ".json") = false := by
      have := hmem.2
      rwa [Bool.not_eq_eq_eq_not, Bool.not_true] at this
    by_cases hstore : storeHas store (mo.code ++ ".json") = true
    · exfalso
      have hh : storeHas (collectAceaData oracle months store)
          (mo.code ++ ".json") = true := by
        rw [collectAceaData]
        exact storeHas_fold_mono oracle _ _ store hstore
      rw [hh] at hnothas
      exact absurd hnothas (by decide)
    · by_cases horacle : oracle mo.year mo.month = none
      · exact horacle
      · exfalso
        have hmiss : mo ∈ filterMissingMonths months store
            (fun m => m.code ++ ".json") := by
          apply List.mem_filter.mpr
          refine ⟨hmem.1, ?_⟩
          rw [Bool.not_eq_eq_eq_not, Bool.not_true]
          exact Bool.eq_false_iff.mpr hstore
        have hw := storeHas_fold_writes oracle _ mo hmiss horacle store
        have hw' : storeHas (collectAceaData oracle months store)
            (monthCode mo.year mo.month ++ ".json") = true := hw
        rw [← hcode mo hmem.1] at hw'
        rw [hw'] at hnothas
        exact absurd hnothas (by decide)

/-- C3 witness: on the concrete instance, the pre-existing 2024-01
record is untouched by a run, and a second run is a no-op. -/
theorem collectAceaData_write_once_idempotent_witness :
    storeLookup (collectAceaData cAceaOracle cAceaMonths cAceaStore)
        "2024-01.json" = storeLookup cAceaStore "2024-01.json" ∧
    collectAceaData cAceaOracle cAceaMonths
        (collectAceaData cAceaOracle cAceaMonths cAceaStore) =
      collectAceaData cAceaOracle cAceaMonths cAceaStore :=
  ⟨(collectAceaData_write_once_idempotent cAceaOracle cAceaMonths cAceaStore
      (by decide)).1 "2024-01.json" (by decide),
   (collectAceaData_write_once_idempotent cAceaOracle cAceaMonths cAceaStore
      (by decide)).2⟩

theorem frScan_mem (clean : List Char) (l : List (List Char × Fuel))
    (best : Option Fuel) (B : Nat) :
    frScan clean l best B ∈ OTHER :: (best.toList ++ l.map Prod.snd) := by
  induction l generalizing best B with
  | nil =>
    cases best with
    | none => simp [frScan]
    | some c => simp [frScan, Option.getD]
  | cons q rest ih =>
    obtain ⟨a, c⟩ := q
    rw [frScan]
    by_cases hc : clean = a
    · rw [if_pos hc]
      simp only [List.map_cons]
      exact List.mem_cons_of_mem _
        (List.mem_append_right _ (List.mem_cons_self _ _))
    · rw [if_neg hc]
      by_cases hup : (jsIncludes clean a && decide (B < a.length)) = true
      · rw [if_pos hup]
        have := ih (some c) a.length
        simp only [List.mem_cons, List.mem_append, Option.toList_some,
          List.map_cons] at this ⊢
        tauto
      · rw [if_neg hup]
        have := ih best B
        simp only [List.mem_cons, List.mem_append, List.map_cons] at this ⊢
        tauto

theorem normalizeFrenchFuel_mem (label : String) :
    normalizeFrenchFuel label ∈
      [UNKNOWN, OTHER, DIESEL, GASOLINE, HYBRID, PHEV, BEV] := by
  rw [normalizeFrenchFuel]
  by_cases h : label = ""
  · simp [h]
  · rw [if_neg h]
    have hmem := frScan_mem (cleanFR label.data) frPairs none 0
    have hsub : ∀ x ∈ (OTHER :: ((none : Option Fuel).toList ++
        frPairs.map Prod.snd)),
        x ∈ [UNKNOWN, OTHER, DIESEL, GASOLINE, HYBRID, PHEV, BEV] := by
      decide
    exact hsub _ hmem

theorem cnFirstContaining_mem (clean : List Char)
    (l : List (List Char × Fuel)) :
    cnFirstContaining clean l ∈ OTHER :: l.map Prod.snd := by
  induction l with
  | nil => simp [cnFirstContaining]
  | cons q rest ih =>
    obtain ⟨a, c⟩ := q
    rw [cnFirstContaining]
    by_cases h : jsIncludes clean a = true
    · rw [if_pos h]
      simp only [List.map_cons]
      exact List.mem_cons_of_mem _ (List.mem_cons_self _ _)
    · rw [if_neg h]
      simp only [List.mem_cons, List.map_cons] at ih ⊢
      tauto

theorem normalizeChineseFuel_mem (label : String) :
    normalizeChineseFuel label ∈
      [UNKNOWN, OTHER, BEV, PHEV, FCEV, HYBRID, GASOLINE, DIESEL] := by
  rw [normalizeChineseFuel]
  by_cases h : label = ""
  · simp [h]
  · rw [if_neg h]
    have hmem := cnFirstContaining_mem (trimL label.data) cnPairs
    have hsub : ∀ x ∈ (OTHER :: cnPairs.map Prod.snd),
        x ∈ [UNKNOWN, OTHER, BEV, PHEV, FCEV, HYBRID, GASOLINE, DIESEL] := by
      decide
    exact hsub _ hmem

theorem addToBucket_fst_mem (S : List Fuel) (acc : List (Fuel × Int))
    (f : Fuel) (v : Int) (hacc : ∀ ft ∈ acc, ft.1 ∈ S) (hf : f ∈ S) :
    ∀ ft ∈ addToBucket acc f v, ft.1 ∈ S := by
  induction acc with
  | nil =>
    intro ft hft
    rw [addToBucket] at hft
    rcases List.mem_singleton.mp hft with h
    rw [h]
    exact hf
  | cons g rest ih =>
    obtain ⟨gf, gw⟩ := g
    intro ft hft
    rw [addToBucket] at hft
    by_cases hg : gf = f
    · rw [if_pos hg] at hft
      rcases List.mem_cons.mp hft with h | h
      · rw [h]
        exact hacc (gf, gw) (List.mem_cons_self _ _)
      · exact hacc ft (List.mem_cons_of_mem _ h)
    · rw [if_neg hg] at hft
      rcases List.mem_cons.mp hft with h | h
      · rw [h]
        exact hacc (gf, gw) (List.mem_cons_self _ _)
      · exact ih (fun r hr => hacc r (List.mem_cons_of_mem _ hr)) ft h

theorem frAggregate_fuels (S : List Fuel) (colMapping : List (Nat × Fuel))
    (row : List Cell) (hcm : ∀ p ∈ colMapping, p.2 ∈ S) :
    ∀ ft ∈ frAggregate colMapping row, ft.1 ∈ S := by
  rw [frAggregate]
  have hgen : ∀ (cm : List (Nat × Fuel)) (acc : List (Fuel × Int)),
      (∀ p ∈ cm, p.2 ∈ S) → (∀ ft ∈ acc, ft.1 ∈ S) →
      ∀ ft ∈ cm.foldl (fun acc p =>
        let val := jsParseIntOr0 (cellToString (cellAt row p.1))
        if 0 < val then addToBucket acc p.2 val else acc) acc, ft.1 ∈ S := by
    intro cm
    induction cm with
    | nil => intro acc _ hacc ft hft; exact hacc ft hft
    | cons p rest ih =>
      intro acc hcm' hacc ft hft
      rw [List.foldl_cons] at hft
      refine ih _ (fun r hr => hcm' r (List.mem_cons_of_mem _ hr)) ?_ ft hft
      by_cases hv : (0 : Int) < jsParseIntOr0 (cellToString (cellAt row p.1))
      · simp only [if_pos hv]
        exact addToBucket_fst_mem S acc p.2 _ hacc
          (hcm' p (List.mem_cons_self _ _))
      · simp only [if_neg hv]
        exact hacc
  exact hgen colMapping [] hcm (by intro ft hft; cases hft)

theorem frColMapping_codes (row : List Cell) :
    ∀ p ∈ frColMapping row, p.2 ∈ [DIESEL, GASOLINE, HYBRID, PHEV, BEV] := by
  intro p hp
  rw [frColMapping] at hp
  obtain ⟨jc, _, hmatch⟩ := List.mem_filterMap.mp hp
  rcases jc with ⟨j, c⟩
  cases c with
  | str s =>
    simp only at hmatch
    split at hmatch
    · next hcond =>
      rcases Option.some_inj.mp hmatch with rfl
      have hmem := normalizeFrenchFuel_mem s
      simp only [List.mem_cons, List.mem_singleton] at hmem ⊢
      rcases hmem with h | h | h | h | h | h | h <;>
        first
          | (exfalso; exact hcond.2 h)
          | (exfalso; exact hcond.1 h)
          | tauto
    · exact absurd hmatch (by simp)
  | num n => exact absurd hmatch (by simp)
  | absent => exact absurd hmatch (by simp)

theorem cnColMapping_codes (row : List Cell) :
    ∀ p ∈ cnColMapping row,
      p.2 ∈ [BEV, PHEV, FCEV, HYBRID, GASOLINE, DIESEL] := by
  intro p hp
  rw [cnColMapping] at hp
  obtain ⟨jc, _, hmatch⟩ := List.mem_filterMap.mp hp
  rcases jc with ⟨j, c⟩
  cases c with
  | str s =>
    simp only at hmatch
    split at hmatch
    · next hcond =>
      rcases Option.some_inj.mp hmatch with rfl
      have hmem := normalizeChineseFuel_mem s
      simp only [List.mem_cons, List.mem_singleton] at hmem ⊢
      rcases hmem with h | h | h | h | h | h | h | h <;>
        first
          | (exfalso; exact hcond.2 h)
          | (exfalso; exact hcond.1 h)
          | tauto
    · exact absurd hmatch (by simp)
  | num n => exact absurd hmatch (by simp)
  | absent => exact absurd hmatch (by simp)

theorem storeLookup_write_cases (s : Store) (k kk : String) (v r : JsonRec)
    (h : storeLookup (storeWrite s kk v) k = some r) :
    storeLookup s k = some r ∨ r = v := by
  by_cases hk : kk = k
  · rw [hk, storeLookup_write_self] at h
    exact Or.inr (Option.some_inj.mp h).symm
  · rw [storeLookup_write_ne _ _ _ _ hk] at h
    exact Or.inl h

theorem frRowStep_lookup (cm : List (Nat × Fuel)) (cd : Option Nat)
    (st : Store) (row : List Cell) (k : String) (r : JsonRec)
    (h : storeLookup (frRowStep cm cd st row) k = some r) :
    storeLookup st k = some r ∨
    (r.region = some "FR" ∧ r.typ = some "all" ∧
     ∀ e ∈ r.data, e.energie ∈ cm.map Prod.snd) := by
  rw [frRowStep.eq_def] at h
  dsimp only [] at h
  split at h
  · exact Or.inl h
  · split at h
    · exact Or.inl h
    · split at h
      · split at h
        · split at h
          · exact Or.inl h
          · rcases storeLookup_write_cases _ _ _ _ _ h with hl | rfl
            · exact Or.inl hl
            · refine Or.inr ⟨rfl, rfl, ?_⟩
              intro e he
              simp only [List.mem_map] at he
              obtain ⟨ft, hft, rfl⟩ := he
              exact frAggregate_fuels (cm.map Prod.snd) cm row
                (fun p hp => List.mem_map_of_mem Prod.snd hp) ft hft
        · exact Or.inl h
      · exact Or.inl h

theorem frProcessRows_lookup (cm : List (Nat × Fuel)) (cd : Option Nat)
    (rows : List (List Cell)) :
    ∀ (st : Store) (k : String) (r : JsonRec),
    storeLookup (frProcessRows cm cd rows st) k = some r →
    storeLookup st k = some r ∨
    (r.region = some "FR" ∧ r.typ = some "all" ∧
     ∀ e ∈ r.data, e.energie ∈ cm.map Prod.snd) := by
  induction rows with
  | nil => intro st k r h; exact Or.inl h
  | cons row rest ih =>
    intro st k r h
    rw [frProcessRows, List.foldl_cons] at h
    rcases ih _ k r h with hlook | hnew
    · exact frRowStep_lookup cm cd st row k r hlook
    · exact Or.inr hnew

theorem cnRowStep_lookup (cm : List (Nat × Fuel)) (cd : Option Nat)
    (st : Store) (row : List Cell) (k : String) (r : JsonRec)
    (h : storeLookup (cnRowStep cm cd st row) k = some r) :
    storeLookup st k = some r ∨
    (r.region = some "CN" ∧ r.typ = some "all" ∧
     ∀ e ∈ r.data, e.energie ∈ cm.map Prod.snd) := by
  rw [cnRowStep.eq_def] at h
  dsimp only [] at h
  split at h
  · exact Or.inl h
  · split at h
    · exact Or.inl h
    · split at h
      · split at h
        · split at h
          · exact Or.inl h
          · rcases storeLookup_write_cases _ _ _ _ _ h with hl | rfl
            · exact Or.inl hl
            · refine Or.inr ⟨rfl, rfl, ?_⟩
              intro e he
              simp only [List.mem_map] at he
              obtain ⟨ft, hft, rfl⟩ := he
              exact frAggregate_fuels (cm.map Prod.snd) cm row
                (fun p hp => List.mem_map_of_mem Prod.snd hp) ft hft
        · exact Or.inl h
      · exact Or.inl h

theorem cnProcessRows_lookup (cm : List (Nat × Fuel)) (cd : Option Nat)
    (rows : List (List Cell)) :
    ∀ (st : Store) (k : String) (r : JsonRec),
    storeLookup (rows.foldl (cnRowStep cm cd) st) k = some r →
    storeLookup st k = some r ∨
    (r.region = some "CN" ∧ r.typ = some "all" ∧
     ∀ e ∈ r.data, e.energie ∈ cm.map Prod.snd) := by
  induction rows with
  | nil => intro st k r h; exact Or.inl h
  | cons row rest ih =>
    intro st k r h
    rw [List.foldl_cons] at h
    rcases ih _ k r h with hlook | hnew
    · exact cnRowStep_lookup cm cd st row k r hlook
    · exact Or.inr hnew

/-- C6: the claim fails on the code in two ways.  The Chinese Excel
path persists a record whose entry carries the fuel code FCEV, which is
not a member of the closed canonical enumeration, and the ACEA writer
builds its output object from year, month and data only, omitting the
region and type fields. -/
theorem persistedRecordShape_counterexample :
    storeLookup (cnFetchAndProcessExcel cnClaimSheet []) "2023-05.json" =
      some (JsonRec.mk 2023 5 (some "CN") (some "all")
        [FuelEntry.mk "所有品牌" "所有车型" 10 FCEV]) ∧
    FCEV ∉ canonicalFuelCodes ∧
    (aceaRecord 2024 1 [(BEV, 5)]).region = none ∧
    (aceaRecord 2024 1 [(BEV, 5)]).typ = none := by
  decide

/-- C6 (amended): every record the French spreadsheet path adds to the
store carries region FR, type all and only canonical fuel codes; every
record the Chinese spreadsheet path adds carries region CN, type all
and fuel codes drawn from the canonical enumeration extended with FCEV;
the ACEA writer persists records with year, month and data but no
region and no type field, and the codes of a successful positional-PDF
extraction all lie in the canonical enumeration. -/
theorem persistedRecordShape :
    (∀ (rows : List (List Cell)) (st : Store) (k : String) (r : JsonRec),
      storeLookup (fetchAndProcessExcel rows st) k = some r →
      storeLookup st k = some r ∨
      (r.region = some "FR" ∧ r.typ = some "all" ∧
        ∀ e ∈ r.data, e.energie ∈ canonicalFuelCodes)) ∧
    (∀ (rows : List (List Cell)) (st : Store) (k : String) (r : JsonRec),
      storeLookup (cnFetchAndProcessExcel rows st) k = some r →
      storeLookup st k = some r ∨
      (r.region = some "CN" ∧ r.typ = some "all" ∧
        ∀ e ∈ r.data, e.energie ∈ FCEV :: canonicalFuelCodes)) ∧
    (∀ (y m : Int) (raw : List (Fuel × Int)),
      (aceaRecord y m raw).region = none ∧ (aceaRecord y m raw).typ = none ∧
      ∀ e ∈ (aceaRecord y m raw).data, e.energie ∈ raw.map Prod.fst) ∧
    (∀ (numbers : List Int) (r : List (Fuel × Int)),
      frPdfSlots numbers = Except.ok r →
      ∀ p ∈ r, p.1 ∈ canonicalFuelCodes) := by
  refine ⟨?_, ?_, ?_, ?_⟩
  · intro rows st k r h
    rw [fetchAndProcessExcel] at h
    split at h
    · exact Or.inl h
    · next hrv hheq =>
      rcases frProcessRows_lookup _ _ _ st k r h with hl | ⟨h1, h2, h3⟩
      · exact Or.inl hl
      · refine Or.inr ⟨h1, h2, ?_⟩
        intro e he
        have hcode := h3 e he
        rcases List.mem_map.mp hcode with ⟨p, hp, hpe⟩
        have h5 := frColMapping_codes hrv.1 p hp
        have hsub : ∀ x ∈ [DIESEL, GASOLINE, HYBRID, PHEV, BEV],
            x ∈ canonicalFuelCodes := by decide
        rw [← hpe]
        exact hsub _ h5
  · intro rows st k r h
    rw [cnFetchAndProcessExcel] at h
    split at h
    · exact Or.inl h
    · next hrv hheq =>
      rcases cnProcessRows_lookup _ _ _ st k r h with hl | ⟨h1, h2, h3⟩
      · exact Or.inl hl
      · refine Or.inr ⟨h1, h2, ?_⟩
        intro e he
        have hcode := h3 e he
        rcases List.mem_map.mp hcode with ⟨p, hp, hpe⟩
        have h5 := cnColMapping_codes hrv.1 p hp
        have hsub : ∀ x ∈ [BEV, PHEV, FCEV, HYBRID, GASOLINE, DIESEL],
            x ∈ FCEV :: canonicalFuelCodes := by decide
        rw [← hpe]
        exact hsub _ h5
  · intro y m raw
    refine ⟨rfl, rfl, ?_⟩
    intro e he
    rw [aceaRecord] at he
    simp only [List.mem_map] at he
    obtain ⟨it, hit, rfl⟩ := he
    exact List.mem_map_of_mem Prod.fst hit
  · intro numbers r h
    rw [frPdfSlots] at h
    split at h
    · exact absurd h (by simp)
    · obtain rfl := Except.ok.inj h
      intro p hp
      simp only [List.mem_cons, List.not_mem_nil, or_false] at hp
      rcases hp with h | h | h | h | h | h <;> rw [h] <;>
        simp [canonicalFuelCodes]

/-- C6 witness: the shape theorem applied at the concrete synthetic
sheets and a concrete ACEA extraction: the records produced carry the
stated region and type fields and codes. -/
theorem persistedRecordShape_witness :
    (JsonRec.mk 2023 5 (some "FR") (some "all")
      [FuelEntry.mk "Toutes marques" "Tous modèles" 50 GASOLINE,
       FuelEntry.mk "Toutes marques" "Tous modèles" 25 BEV]).region =
      some "FR" ∧
    (aceaRecord 2024 1 [(BEV, 5)]).region = none ∧
    GASOLINE ∈ canonicalFuelCodes := by
  have hfr := persistedRecordShape.1 frClaimSheet [] "2023-05.json"
    (JsonRec.mk 2023 5 (some "FR") (some "all")
      [FuelEntry.mk "Toutes marques" "Tous modèles" 50 GASOLINE,
       FuelEntry.mk "Toutes marques" "Tous modèles" 25 BEV]) (by decide)
  rcases hfr with hl | ⟨h1, _, h3⟩
  · exact absurd hl (by decide)
  · exact ⟨h1, (persistedRecordShape.2.2.1 2024 1 [(BEV, 5)]).1,
      h3 (FuelEntry.mk "Toutes marques" "Tous modèles" 50 GASOLINE)
        (by decide)⟩

/-- C8: the claim fails on the older text-window variant of
parsePdfData, which has no degraded-layout branch: given the twelve
numbers of a dash-degraded row it assigns the Others current value to
HYBRID and shifts Petrol, Diesel and Total into the wrong slots. -/
theorem parsePdfSlots006_misalignment_counterexample :
    parsePdfSlots006
        [1000, 900, 500, 450, 2000, 1900, 1500, 1400, 5300, 4930, 6000, 5800] =
      Except.ok [(BEV, 1000), (PHEV, 500), (HYBRID, 2000), (DIESEL, 6000),
        (GASOLINE, 5300), (OTHER, 1500)] ∧
    (2000 : Int) ≠ 0 := by
  decide

/-- C8 (amended): the coordinate-based positional-PDF extractor detects
the degraded layout by total token count: for any twelve remaining
numbers (the hybrid pair having been stripped as dash placeholders) it
assigns BEV, PHEV, DIESEL and GASOLINE from the correct positions with
HYBRID total 0, and on the synthetic dash-degraded France row the full
token pipeline produces exactly those entries.  The older text-window
variant lacks this branch and misassigns the slots. -/
theorem parsePdfData_degraded_layout :
    (∀ b bp p pp o op g gp d dp t tp : Int,
      frPdfSlots [b, bp, p, pp, o, op, g, gp, d, dp, t, tp] =
        Except.ok [(BEV, b), (PHEV, p), (HYBRID, 0), (DIESEL, d),
          (GASOLINE, g), (OTHER, o)]) ∧
    parsePdfDataRow ["France"] frDegradedRow =
      Except.ok [(BEV, 1000), (PHEV, 500), (HYBRID, 0), (DIESEL, 5300),
        (GASOLINE, 1500), (OTHER, 2000)] := by
  exact ⟨fun b bp p pp o op g gp d dp t tp => rfl, by decide⟩

/-- C10: a successful run of either positional-PDF slot assignment
returns exactly six entries, one for each of BEV, PHEV, HYBRID, DIESEL,
GASOLINE and OTHER in that order; the ACEA writer persists the entries
unchanged (zero totals included, as the degraded HYBRID 0 entry shows),
while the spreadsheet path drops zero values (a zero Essence column
produces no GASOLINE entry). -/
theorem parsePdfData_six_slots :
    (∀ (numbers : List Int) (r : List (Fuel × Int)),
      frPdfSlots numbers = Except.ok r →
      r.map Prod.fst = [BEV, PHEV, HYBRID, DIESEL, GASOLINE, OTHER]) ∧
    (∀ (numbers : List Int) (r : List (Fuel × Int)),
      parsePdfSlots006 numbers = Except.ok r →
      r.map Prod.fst = [BEV, PHEV, HYBRID, DIESEL, GASOLINE, OTHER]) ∧
    (∀ (y m : Int) (raw : List (Fuel × Int)),
      (aceaRecord y m raw).data.map (fun e => (e.energie, e.total)) = raw) ∧
    ((aceaRecord 2025 5 [(BEV, 1000), (PHEV, 500), (HYBRID, 0),
        (DIESEL, 5300), (GASOLINE, 1500), (OTHER, 2000)]).data.any
      (fun e => e.total = 0 && e.energie = HYBRID) = true) ∧
    fetchAndProcessExcel
        [[Cell.str "Period", Cell.str "Essence", Cell.str "Electrique"],
         [Cell.str "2023_05", Cell.str "0", Cell.str "25"]] [] =
      [("2023-05.json", JsonRec.mk 2023 5 (some "FR") (some "all")
        [FuelEntry.mk "Toutes marques" "Tous modèles" 25 BEV])] := by
  refine ⟨?_, ?_, ?_, by decide, by decide⟩
  · intro numbers r h
    rw [frPdfSlots] at h
    split at h
    · exact absurd h (by simp)
    · obtain rfl := Except.ok.inj h
      rfl
  · intro numbers r h
    rw [parsePdfSlots006] at h
    split at h
    · exact absurd h (by simp)
    · obtain rfl := Except.ok.inj h
      rfl
  · intro y m raw
    rw [aceaRecord]
    simp only [List.map_map]
    exact List.map_id'' (fun it => rfl) raw

/-- C10 witness: the six-slot theorem applied at a concrete successful
extraction of both variants. -/
theorem parsePdfData_six_slots_witness :
    ([(BEV, (1000 : Int)), (PHEV, 500), (HYBRID, 0), (DIESEL, 5300),
      (GASOLINE, 1500), (OTHER, 2000)].map Prod.fst =
      [BEV, PHEV, HYBRID, DIESEL, GASOLINE, OTHER]) ∧
    ([(BEV, (1000 : Int)), (PHEV, 500), (HYBRID, 2000), (DIESEL, 6000),
      (GASOLINE, 5300), (OTHER, 1500)].map Prod.fst =
      [BEV, PHEV, HYBRID, DIESEL, GASOLINE, OTHER]) :=
  ⟨parsePdfData_six_slots.1
      [1000, 900, 500, 450, 2000, 1900, 1500, 1400, 5300, 4930, 6000, 5800]
      _ (by decide),
   parsePdfData_six_slots.2.1
      [1000, 900, 500, 450, 2000, 1900, 1500, 1400, 5300, 4930, 6000, 5800]
      _ (by decide)⟩

theorem runMonthsNL_foldl_count
    (oracle : String → Except String (List (Fuel × Int)))
    (months : List MonthInfo) :
    ∀ acc : Nat × Nat × Store,
    (months.foldl (fun acc m =>
      match oracle m.code with
      | Except.error _ => (acc.1, acc.2.1 + 1, acc.2.2)
      | Except.ok fuelData =>
        if fuelData ≠ [] then
          (acc.1 + 1, acc.2.1,
            storeWrite acc.2.2 (m.code ++ ".json") (nlRecord m fuelData))
        else (acc.1, acc.2.1 + 1, acc.2.2)) acc).1 +
    (months.foldl (fun acc m =>
      match oracle m.code with
      | Except.error _ => (acc.1, acc.2.1 + 1, acc.2.2)
      | Except.ok fuelData =>
        if fuelData ≠ [] then
          (acc.1 + 1, acc.2.1,
            storeWrite acc.2.2 (m.code ++ ".json") (nlRecord m fuelData))
        else (acc.1, acc.2.1 + 1, acc.2.2)) acc).2.1 =
      acc.1 + acc.2.1 + months.length := by
  induction months with
  | nil => intro acc; simp
  | cons m rest ih =>
    intro acc
    cases horacle : oracle m.code with
    | error e =>
      rw [List.foldl_cons, horacle, List.length_cons]
      dsimp only
      have := ih (acc.1, acc.2.1 + 1, acc.2.2)
      dsimp only at this
      omega
    | ok fuelData =>
      rw [List.foldl_cons, horacle, List.length_cons]
      dsimp only
      by_cases hfd : fuelData ≠ []
      · rw [if_pos hfd]
        have := ih (acc.1 + 1, acc.2.1,
          storeWrite acc.2.2 (m.code ++ ".json") (nlRecord m fuelData))
        dsimp only at this
        omega
      · rw [if_neg hfd]
        have := ih (acc.1, acc.2.1 + 1, acc.2.2)
        dsimp only at this
        omega

theorem runZoneParsers_snd_none
    (impl : ParserRef → Option (Except String Unit)) (ps : List ParserRef)
    (h : ∀ p ∈ ps, ∀ e, impl p ≠ some (Except.error e)) :
    (runZoneParsers impl ps).2 = none := by
  induction ps with
  | nil => rfl
  | cons p rest ih =>
    rw [runZoneParsers]
    cases himpl : impl p with
    | none => exact ih (fun q hq => h q (List.mem_cons_of_mem _ hq))
    | some res =>
      cases res with
      | ok u => exact ih (fun q hq => h q (List.mem_cons_of_mem _ hq))
      | error e => exact absurd himpl (h p (List.mem_cons_self _ _) e)

theorem runZoneParsers_log_subset
    (impl : ParserRef → Option (Except String Unit)) (ps : List ParserRef) :
    (runZoneParsers impl ps).1 ⊆ ps := by
  induction ps with
  | nil => exact List.Subset.refl _
  | cons p rest ih =>
    rw [runZoneParsers]
    cases himpl : impl p with
    | none => exact List.Subset.trans ih (List.subset_cons_self _ _)
    | some res =>
      cases res with
      | ok u =>
        intro q hq
        rcases List.mem_cons.mp hq with rfl | hq'
        · exact List.mem_cons_self _ _
        · exact List.mem_cons_of_mem _ (ih hq')
      | error e => intro q hq; cases hq

theorem runZoneParsers_err
    (impl : ParserRef → Option (Except String Unit))
    (p₁ : List ParserRef) (p : ParserRef) (p₂ : List ParserRef) (e : String)
    (h₁ : ∀ q ∈ p₁, ∀ ee, impl q ≠ some (Except.error ee))
    (hp : impl p = some (Except.error e)) :
    (runZoneParsers impl (p₁ ++ p :: p₂)).2 = some e := by
  induction p₁ with
  | nil =>
    simp only [List.nil_append]
    rw [runZoneParsers, hp]
  | cons q rest ih =>
    simp only [List.cons_append]
    rw [runZoneParsers]
    cases himpl : impl q with
    | none => exact ih (fun x hx => h₁ x (List.mem_cons_of_mem _ hx))
    | some res =>
      cases res with
      | ok u => exact ih (fun x hx => h₁ x (List.mem_cons_of_mem _ hx))
      | error ee => exact absurd himpl (h₁ q (List.mem_cons_self _ _) ee)

theorem runAllParsers_err
    (impl : ParserRef → Option (Except String Unit))
    (z₁ : List (String × List ParserRef)) (zc : String)
    (ps : List ParserRef) (z₂ : List (String × List ParserRef)) (e : String)
    (hz₁ : ∀ z ∈ z₁, ∀ p ∈ z.2, ∀ ee, impl p ≠ some (Except.error ee))
    (hzone : (runZoneParsers impl ps).2 = some e) :
    (runAllParsers impl (z₁ ++ (zc, ps) :: z₂)).2 = some e ∧
    (runAllParsers impl (z₁ ++ (zc, ps) :: z₂)).1 ⊆
      z₁.flatMap (fun z => z.2) ++ ps := by
  induction z₁ with
  | nil =>
    simp only [List.nil_append, List.flatMap_nil]
    rw [runAllParsers]
    cases hrun : runZoneParsers impl ps with
    | mk done oerr =>
      rw [hrun] at hzone
      simp only at hzone
      subst hzone
      refine ⟨rfl, ?_⟩
      have := runZoneParsers_log_subset impl ps
      rw [hrun] at this
      simpa using this
  | cons z rest ih =>
    simp only [List.cons_append, List.flatMap_cons]
    rw [runAllParsers]
    have hznone : (runZoneParsers impl z.2).2 = none :=
      runZoneParsers_snd_none impl z.2
        (fun p hp => hz₁ z (List.mem_cons_self _ _) p hp)
    obtain ⟨herr, hsub⟩ := ih (fun x hx => hz₁ x (List.mem_cons_of_mem _ hx))
    cases hrun : runZoneParsers impl z.2 with
    | mk done oerr =>
      rw [hrun] at hznone
      simp only at hznone
      subst hznone
      refine ⟨herr, ?_⟩
      intro q hq
      simp only [List.append_assoc]
      rcases List.mem_append.mp hq with hq' | hq'
      · apply List.mem_append_left
        have := runZoneParsers_log_subset impl z.2
        rw [hrun] at this
        exact this hq'
      · exact List.mem_append_right _ (hsub hq')

theorem runAllParsers_ok
    (impl : ParserRef → Option (Except String Unit))
    (zones : List (String × List ParserRef))
    (h : ∀ z ∈ zones, ∀ p ∈ z.2, ∀ e, impl p ≠ some (Except.error e)) :
    (runAllParsers impl zones).2 = none := by
  induction zones with
  | nil => rfl
  | cons z rest ih =>
    rw [runAllParsers]
    have hznone : (runZoneParsers impl z.2).2 = none :=
      runZoneParsers_snd_none impl z.2
        (fun p hp => h z (List.mem_cons_self _ _) p hp)
    cases hrun : runZoneParsers impl z.2 with
    | mk done oerr =>
      rw [hrun] at hznone
      simp only at hznone
      subst hznone
      exact ih (fun x hx => h x (List.mem_cons_of_mem _ hx))

theorem nlFold_has_mono (oracle : String → Except String (List (Fuel × Int)))
    (months : List MonthInfo) (k : String) :
    ∀ acc : Nat × Nat × Store, storeHas acc.2.2 k = true →
    storeHas ((months.foldl (fun acc m =>
      match oracle m.code with
      | Except.error _ => (acc.1, acc.2.1 + 1, acc.2.2)
      | Except.ok fuelData =>
        if fuelData ≠ [] then
          (acc.1 + 1, acc.2.1,
            storeWrite acc.2.2 (m.code ++ ".json") (nlRecord m fuelData))
        else (acc.1, acc.2.1 + 1, acc.2.2)) acc).2.2) k = true := by
  induction months with
  | nil => intro acc h; exact h
  | cons m rest ih =>
    intro acc h
    cases horacle : oracle m.code with
    | error e =>
      rw [List.foldl_cons, horacle]
      exact ih _ h
    | ok fuelData =>
      rw [List.foldl_cons, horacle]
      dsimp only
      by_cases hfd : fuelData ≠ []
      · rw [if_pos hfd]
        exact ih _ (storeHas_write_mono _ _ _ _ h)
      · rw [if_neg hfd]
        exact ih _ h

theorem nlFold_writes (oracle : String → Except String (List (Fuel × Int)))
    (months : List MonthInfo) (m : MonthInfo) (hm : m ∈ months)
    (d : List (Fuel × Int)) (hd : oracle m.code = Except.ok d)
    (hne : d ≠ []) :
    ∀ acc : Nat × Nat × Store,
    storeHas ((months.foldl (fun acc m =>
      match oracle m.code with
      | Except.error _ => (acc.1, acc.2.1 + 1, acc.2.2)
      | Except.ok fuelData =>
        if fuelData ≠ [] then
          (acc.1 + 1, acc.2.1,
            storeWrite acc.2.2 (m.code ++ ".json") (nlRecord m fuelData))
        else (acc.1, acc.2.1 + 1, acc.2.2)) acc).2.2)
      (m.code ++ ".json") = true := by
  induction months with
  | nil => exact absurd hm (List.not_mem_nil m)
  | cons hd' rest ih =>
    intro acc
    rcases List.mem_cons.mp hm with rfl | hmem
    · rw [List.foldl_cons, hd]
      dsimp only
      rw [if_pos hne]
      apply nlFold_has_mono
      simp [storeHas, storeLookup_write_self]
    · rw [List.foldl_cons]
      exact ih hmem _

/-- C5: the claim fails on the code.  collect_all.js awaits each
parser with no per-parser try/catch, so the rejection of zone A's
parser propagates to the top-level catch: the process exits 1 and zone
B's parser, which would have succeeded, is never run (the completed
log is empty). -/
theorem collectAll_abort_counterexample :
    collectAll cZones none cImpl = (1, []) ∧
    cImpl "pB" = some (Except.ok ()) ∧ (1 : Nat) ≠ 0 := by
  decide

/-- C5 (amended): within one country's month loop an error in one month
never aborts the remaining months (every missing month is accounted as
a success or an error, and a successful nonempty month is persisted
even when other months fail), and a run whose parsers all return exits
0; but an error escaping one country's parser aborts the remaining
parsers and countries and exits 1 (the completed parsers all precede
the failing zone), and an unknown requested zone exits 1 running
nothing. -/
theorem errorIsolation_run :
    (∀ (oracle : String → Except String (List (Fuel × Int)))
        (months : List MonthInfo) (store : Store),
      (runMonthsNL oracle months store).1 +
        (runMonthsNL oracle months store).2.1 = months.length) ∧
    (∀ (oracle : String → Except String (List (Fuel × Int)))
        (months : List MonthInfo) (store : Store)
        (m : MonthInfo) (d : List (Fuel × Int)),
      m ∈ months → oracle m.code = Except.ok d → d ≠ [] →
      storeHas (runMonthsNL oracle months store).2.2
        (m.code ++ ".json") = true) ∧
    (∀ (zones : List (String × List ParserRef))
        (impl : ParserRef → Option (Except String Unit)),
      (∀ z ∈ zones, ∀ p ∈ z.2, ∀ e, impl p ≠ some (Except.error e)) →
      (collectAll zones none impl).1 = 0) ∧
    (∀ (impl : ParserRef → Option (Except String Unit))
        (z₁ : List (String × List ParserRef)) (zc : String)
        (ps : List ParserRef) (z₂ : List (String × List ParserRef))
        (e : String),
      (∀ z ∈ z₁, ∀ p ∈ z.2, ∀ ee, impl p ≠ some (Except.error ee)) →
      (runZoneParsers impl ps).2 = some e →
      (collectAll (z₁ ++ (zc, ps) :: z₂) none impl).1 = 1 ∧
      (collectAll (z₁ ++ (zc, ps) :: z₂) none impl).2 ⊆
        z₁.flatMap (fun z => z.2) ++ ps) ∧
    (∀ (zones : List (String × List ParserRef))
        (impl : ParserRef → Option (Except String Unit)) (t : String),
      zones.find? (fun z => z.1 = t) = none →
      collectAll zones (some t) impl = (1, [])) := by
  refine ⟨?_, ?_, ?_, ?_, ?_⟩
  · intro oracle months store
    rw [runMonthsNL]
    have := runMonthsNL_foldl_count oracle months (0, 0, store)
    simpa using this
  · intro oracle months store m d hm hd hne
    rw [runMonthsNL]
    exact nlFold_writes oracle months m hm d hd hne (0, 0, store)
  · intro zones impl h
    rw [collectAll]
    have hnone := runAllParsers_ok impl zones h
    cases hrun : runAllParsers impl zones with
    | mk done oerr =>
      rw [hrun] at hnone
      simp only at hnone
      subst hnone
      rfl
  · intro impl z₁ zc ps z₂ e hz₁ hzone
    obtain ⟨herr, hsub⟩ := runAllParsers_err impl z₁ zc ps z₂ e hz₁ hzone
    rw [collectAll]
    cases hrun : runAllParsers impl (z₁ ++ (zc, ps) :: z₂) with
    | mk done oerr =>
      rw [hrun] at herr hsub
      simp only at herr hsub
      subst herr
      exact ⟨rfl, hsub⟩
  · intro zones impl t hfind
    rw [collectAll, hfind]

/-- C5 witness: the amended theorem at concrete inputs: both months of
a two-month run are accounted despite the first one failing, the
later month is persisted, an all-successful run exits 0, and an
unknown zone exits 1. -/
theorem errorIsolation_run_witness :
    (runMonthsNL cOracle [mkMonth 2024 1, mkMonth 2024 2] []).1 +
      (runMonthsNL cOracle [mkMonth 2024 1, mkMonth 2024 2] []).2.1 = 2 ∧
    storeHas (runMonthsNL cOracle [mkMonth 2024 1, mkMonth 2024 2] []).2.2
      "2024-02.json" = true ∧
    (collectAll [("B", ["pB"])] none cImpl).1 = 0 ∧
    collectAll cZones (some "ZZ") cImpl = (1, []) :=
  ⟨errorIsolation_run.1 cOracle [mkMonth 2024 1, mkMonth 2024 2] [],
   errorIsolation_run.2.1 cOracle [mkMonth 2024 1, mkMonth 2024 2] []
     (mkMonth 2024 2) [(BEV, 1)] (by decide) (by decide) (by decide),
   errorIsolation_run.2.2.1 [("B", ["pB"])] cImpl (by
     intro z hz p hp e
     have hz' := List.mem_singleton.mp hz
     subst hz'
     have hp' := List.mem_singleton.mp hp
     subst hp'
     simp [cImpl]),
   errorIsolation_run.2.2.2.2 cZones cImpl "ZZ" (by decide)⟩

theorem loopTime_snd (mths fls : List String) (val : List (Option Int))
    (fIdx : Nat) :
    ∀ (r t vi : Nat) (st : StMap),
    (loopTime mths fls val fIdx r t vi st).2 = vi + r := by
  intro r
  induction r with
  | zero => intro t vi st; rfl
  | succ r ih =>
    intro t vi st
    rw [loopTime]
    rw [ih]
    omega

theorem loopTime_preserve (mths fls : List String) (val : List (Option Int))
    (fIdx : Nat) :
    ∀ (r t vi : Nat) (st : StMap) (m' f' : String),
    (f' ≠ fls.getD fIdx "" ∨ ∀ j, j < r → m' ≠ mths.getD (t + j) "") →
    (loopTime mths fls val fIdx r t vi st).1 m' f' = st m' f' := by
  intro r
  induction r with
  | zero => intro t vi st m' f' _; rfl
  | succ r ih =>
    intro t vi st m' f' hcond
    rw [loopTime]
    rw [ih (t + 1) (vi + 1) _ m' f' ?_]
    · rw [jsUpdate]
      rcases hcond with hf | hm
      · rw [if_neg]
        intro hc
        exact hf hc.2
      · rw [if_neg]
        intro hc
        exact hm 0 (Nat.succ_pos r) (by simpa using hc.1)
    · rcases hcond with hf | hm
      · exact Or.inl hf
      · refine Or.inr (fun j hj => ?_)
        have := hm (j + 1) (by omega)
        simpa [Nat.add_assoc, Nat.add_comm 1 j] using this

theorem loopTime_hit (mths fls : List String) (val : List (Option Int))
    (fIdx : Nat) (hnd : mths.Nodup) :
    ∀ (r t j vi : Nat) (st : StMap), t + r ≤ mths.length → j < r →
    (loopTime mths fls val fIdx r t vi st).1
        (mths.getD (t + j) "") (fls.getD fIdx "") =
      some (valAt val (vi + j)) := by
  intro r
  induction r with
  | zero => intro t j vi st _ hj; omega
  | succ r ih =>
    intro t j vi st hlen hj
    rw [loopTime]
    cases j with
    | zero =>
      rw [loopTime_preserve mths fls val fIdx r (t + 1) (vi + 1) _
        (mths.getD (t + 0) "") (fls.getD fIdx "") ?_]
      · rw [jsUpdate, if_pos (by simp)]
        simp
      · refine Or.inr (fun j' hj' hcontra => ?_)
        have ht : t < mths.length := by omega
        have ht' : t + 1 + j' < mths.length := by omega
        rw [Nat.add_zero] at hcontra
        rw [List.getD_eq_getElem mths "" ht,
          List.getD_eq_getElem mths "" ht'] at hcontra
        have := (hnd.getElem_inj_iff.mp hcontra)
        omega
    | succ j' =>
      have harg : t + (j' + 1) = (t + 1) + j' := by omega
      rw [harg]
      rw [ih (t + 1) j' (vi + 1) _ (by omega) (by omega)]
      have h2 : vi + 1 + j' = vi + (j' + 1) := by omega
      rw [h2]

theorem loopContents_one (mths fls : List String) (val : List (Option Int))
    (fIdx d vi : Nat) (st : StMap) :
    loopContents mths fls val fIdx 1 d vi st =
      loopTime mths fls val fIdx d 0 vi st := by
  rw [loopContents, loopContents]

theorem loopFuel_preserve (mths fls : List String) (val : List (Option Int)) :
    ∀ (r fIdx d vi : Nat) (st : StMap) (m' f' : String),
    (∀ j, j < r → f' ≠ fls.getD (fIdx + j) "") →
    (loopFuel mths fls val r fIdx 1 d vi st).1 m' f' = st m' f' := by
  intro r
  induction r with
  | zero => intro fIdx d vi st m' f' _; rfl
  | succ r ih =>
    intro fIdx d vi st m' f' hcond
    rw [loopFuel]
    rw [loopContents_one]
    rw [ih (fIdx + 1) d _ _ m' f' ?_]
    · rw [loopTime_preserve mths fls val fIdx d 0 vi st m' f' ?_]
      refine Or.inl ?_
      have := hcond 0 (Nat.succ_pos r)
      simpa using this
    · intro j hj
      have := hcond (j + 1) (by omega)
      simpa [Nat.add_assoc, Nat.add_comm 1 j] using this

theorem loopFuel_hit (mths fls : List String) (val : List (Option Int))
    (hmn : mths.Nodup) (hfn : fls.Nodup) :
    ∀ (r fIdx vi : Nat) (st : StMap) (j d t : Nat),
    fIdx + r ≤ fls.length → d ≤ mths.length → j < r → t < d →
    (loopFuel mths fls val r fIdx 1 d vi st).1
        (mths.getD t "") (fls.getD (fIdx + j) "") =
      some (valAt val (vi + (j * d + t))) := by
  intro r
  induction r with
  | zero => intro fIdx vi st j d t _ _ hj _; omega
  | succ r ih =>
    intro fIdx vi st j d t hfl hml hj ht
    rw [loopFuel]
    rw [loopContents_one]
    cases j with
    | zero =>
      rw [loopFuel_preserve mths fls val r (fIdx + 1) d _ _
        (mths.getD t "") (fls.getD (fIdx + 0) "") ?_]
      · have hhit := loopTime_hit mths fls val fIdx hmn d 0 t vi st
          (by omega) ht
        rw [Nat.zero_add] at hhit
        rw [Nat.add_zero, hhit, Nat.zero_mul, Nat.zero_add]
      · intro j' hj' hcontra
        have hf1 : fIdx < fls.length := by omega
        have hf2 : fIdx + 1 + j' < fls.length := by omega
        rw [Nat.add_zero] at hcontra
        rw [List.getD_eq_getElem fls "" hf1,
          List.getD_eq_getElem fls "" hf2] at hcontra
        have := hfn.getElem_inj_iff.mp hcontra
        omega
    | succ j' =>
      rw [loopTime_snd]
      have harg : fIdx + (j' + 1) = (fIdx + 1) + j' := by omega
      rw [harg]
      rw [ih (fIdx + 1) (vi + d) _ j' d t (by omega) hml (by omega) ht]
      have h4 : vi + d + (j' * d + t) = vi + ((j' + 1) * d + t) := by ring
      rw [h4]

theorem findIdxFrom (l : List String) (hnd : l.Nodup) :
    ∀ (t i : Nat), t < l.length →
    List.findIdx? (fun x => decide (x = l.getD t "")) l i = some (i + t) := by
  induction l with
  | nil => intro t i ht; simp at ht
  | cons x xs ih =>
    intro t i ht
    rcases List.nodup_cons.mp hnd with ⟨hx, hxs⟩
    cases t with
    | zero =>
      rw [List.findIdx?_cons, if_pos (by simp)]
      simp
    | succ t' =>
      have ht' : t' < xs.length := by simpa using ht
      rw [List.getD_cons_succ, List.findIdx?_cons, if_neg ?_]
      · rw [ih hxs t' (i + 1) ht']
        congr 1
        omega
      · simp only [decide_eq_true_eq]
        intro hcontra
        apply hx
        rw [hcontra, List.getD_eq_getElem xs "" ht']
        exact List.getElem_mem ht'

theorem loopReg_one (mths fls : List String) (val : List (Option Int))
    (b c d vi : Nat) (st : StMap) :
    loopReg mths fls val 1 b c d vi st =
      loopFuel mths fls val b 0 c d vi st := by
  rw [loopReg, loopReg]

theorem flatIndex_assumed (b d fi ti : Nat) :
    flatIndex ["TypeRegistrering", "DrivstoffType", "ContentsCode", "Tid"]
      [1, b, 1, d] fi ti = fi * d + ti := by
  simp [flatIndex]

/-- C4: the claim fails on the code.  parseJsonStat destructures size
positionally as TypeRegistrering, DrivstoffType, ContentsCode, Tid and
never reads the declared dimension ordering: for a response declaring
the fuel dimension first (size [2, 1, 1, 2]), the extractor loses the
second fuel entirely (lookup none) where the row-major mapping implied
by the declared ordering holds value 3. -/
theorem parseJsonStat_fixed_order_counterexample :
    cResp.dimId = ["DrivstoffType", "TypeRegistrering", "ContentsCode",
      "Tid"] ∧
    parseJsonStat cResp "2024M01" "20" = none ∧
    specRowMajor cResp "2024M01" "20" = some 3 ∧
    (none : Option Int) ≠ some 3 := by
  decide

/-- C4 (amended): parseJsonStat reads the per-dimension category
orderings and the size vector from the response but assumes the fixed
dimension order TypeRegistrering, DrivstoffType, ContentsCode, Tid;
for any response declared in that order with one registration type and
one measure (size [1, b, 1, d]), it reconstructs exactly the period to
fuel to value mapping implied by row-major iteration over the flat
value array. -/
theorem parseJsonStat_assumed_order_rowMajor
    (resp : JsonStatResp) (b d : Nat)
    (hdim : resp.dimId =
      ["TypeRegistrering", "DrivstoffType", "ContentsCode", "Tid"])
    (hsize : resp.size = [1, b, 1, d])
    (hmn : (sortByIdx resp.timeIndex).Nodup)
    (hfn : (sortByIdx resp.fuelIndex).Nodup)
    (hml : d ≤ (sortByIdx resp.timeIndex).length)
    (hfl : b ≤ (sortByIdx resp.fuelIndex).length) :
    ∀ f t, f < b → t < d →
    parseJsonStat resp ((sortByIdx resp.timeIndex).getD t "")
        ((sortByIdx resp.fuelIndex).getD f "") =
      some (valAt resp.value (f * d + t)) ∧
    specRowMajor resp ((sortByIdx resp.timeIndex).getD t "")
        ((sortByIdx resp.fuelIndex).getD f "") =
      some (valAt resp.value (f * d + t)) := by
  intro f t hf ht
  constructor
  · rw [parseJsonStat, hsize]
    simp only [List.getD_cons_zero, List.getD_cons_succ]
    rw [loopReg_one]
    have hhit := loopFuel_hit (sortByIdx resp.timeIndex)
      (sortByIdx resp.fuelIndex) resp.value hmn hfn b 0 0
      (fun _ _ => none) f d t (by omega) hml hf ht
    simp only [Nat.zero_add] at hhit
    exact hhit
  · rw [specRowMajor]
    have hmfind := findIdxFrom (sortByIdx resp.timeIndex) hmn t 0
      (by omega)
    have hffind := findIdxFrom (sortByIdx resp.fuelIndex) hfn f 0
      (by omega)
    simp only [Nat.zero_add] at hmfind hffind
    rw [hmfind, hffind, hdim, hsize]
    dsimp only
    rw [flatIndex_assumed]

/-- C4 witness: the amended theorem applied to the spec's size
[1, 2, 1, 3] example with six known values: the second fuel's third
period receives the sixth flat value, exactly row-major order. -/
theorem parseJsonStat_assumed_order_rowMajor_witness :
    parseJsonStat gResp "2024M03" "20" = some 60 ∧
    specRowMajor gResp "2024M03" "20" = some 60 :=
  parseJsonStat_assumed_order_rowMajor gResp 2 3 (by decide) (by decide)
    (by decide) (by decide) (by decide) (by decide) 1 2 (by decide)
    (by decide)

end EvTracker
